import Mathlib

/-!
Verification of the RaceTiming detection-to-result pipeline.

This file gives a shallow embedding, in Lean 4, of the pure core of the
RaceTiming repository (files `tag_detection.py`, `reader.py`,
`race_control.py`) and proves properties of that embedding.

Modelling conventions:
* Python floats (timestamps, RSSI values, durations) are modelled as `ℚ`.
* Python dicts are modelled as association lists with insertion-order
  semantics (update keeps position, delete removes, fresh insert appends),
  matching CPython dict iteration order.
* `time.time()` is passed explicitly as a `current_time : ℚ` argument.
* Byte strings are `List Nat` (each entry one byte); `bytes.hex()` is
  modelled as returning the byte list itself (hex encoding is injective).
* Callbacks only print in the source, so they are dropped: they never
  affect returned values or state.
* Python truthiness of a float `x` is `x ≠ 0`, of a list its nonemptiness;
  these are embedded explicitly where the source relies on them.
-/

namespace RaceTiming

set_option maxRecDepth 16000

/-- Association-list lookup, first binding wins (python dict access). -/
def dlookup {α β : Type} [DecidableEq α] (k : α) : List (α × β) → Option β
  | [] => none
  | (a, b) :: l => if a = k then some b else dlookup k l

/-- Association-list update: python `d[k] = v` (update in place keeps the
entry position, a fresh key is appended at the end). -/
def dset {α β : Type} [DecidableEq α] (k : α) (v : β) : List (α × β) → List (α × β)
  | [] => [(k, v)]
  | (a, b) :: l => if a = k then (a, v) :: l else (a, b) :: dset k v l

/-- Association-list removal: python `del d[k]` (keys are unique in all the
dicts modelled here, so removing the first binding is exact). -/
def derase {α β : Type} [DecidableEq α] (k : α) : List (α × β) → List (α × β)
  | [] => []
  | (a, b) :: l => if a = k then l else (a, b) :: derase k l

/-- Python `max(xs, key=key)` on a nonempty list `x :: xs`: the first
element attaining the maximal key (ties keep the earlier element). -/
def maxByKey {α : Type} (key : α → ℚ) (x : α) (xs : List α) : α :=
  xs.foldl (fun b a => if key a > key b then a else b) x

/-- Minimum of `x :: xs` (models `numpy.ndarray.min` on a nonempty array). -/
def listMin (x : ℚ) (xs : List ℚ) : ℚ :=
  xs.foldl min x

/-- Maximum of `x :: xs` (models `numpy.ndarray.max` on a nonempty array). -/
def listMax (x : ℚ) (xs : List ℚ) : ℚ :=
  xs.foldl max x

/-! ## `tag_detection.py` -/

/-- `TagRead`: a single tag read event. -/
structure TagRead where
  epc : String
  rssi : ℚ
  timestamp : ℚ
deriving DecidableEq, Repr

/-- State of a `TagBuffer` (`tag_detection.py`, class `TagBuffer`). -/
structure TagBuffer where
  window_seconds : ℚ
  buffers : List (String × List TagRead)
  window_start_times : List (String × ℚ)
  last_processed : List (String × ℚ)
deriving DecidableEq, Repr

/-- `TagBuffer.__init__`: fresh buffer with a given window. -/
def TagBuffer.init (window_seconds : ℚ) : TagBuffer :=
  { window_seconds := window_seconds
    buffers := []
    window_start_times := []
    last_processed := [] }

/-- Least-squares quadratic fit `y = a·t² + b·t + c` through the points
`(ts i, ys i)`, via the normal equations solved by Cramer's rule.  Models
`numpy.polyfit(t, y, 2)`: on a design matrix of full column rank (in
particular on ≥ 3 distinct times) the least-squares solution is unique and
equals this normal-equation solution; a singular system yields `none`
(modelling the `except` fallback of `_calculate_peak_rssi`). -/
def polyfit2 (ts ys : List ℚ) : Option (ℚ × ℚ × ℚ) :=
  let s0 : ℚ := (ts.map (fun _ => (1 : ℚ))).sum
  let s1 := ts.sum
  let s2 := (ts.map (fun t => t * t)).sum
  let s3 := (ts.map (fun t => t * t * t)).sum
  let s4 := (ts.map (fun t => t * t * t * t)).sum
  let v0 := ys.sum
  let v1 := ((ts.zip ys).map (fun p => p.1 * p.2)).sum
  let v2 := ((ts.zip ys).map (fun p => p.1 * p.1 * p.2)).sum
  let det := s4 * (s2 * s0 - s1 * s1) - s3 * (s3 * s0 - s1 * s2) + s2 * (s3 * s1 - s2 * s2)
  if det = 0 then none
  else
    let da := v2 * (s2 * s0 - s1 * s1) - s3 * (v1 * s0 - s1 * v0) + s2 * (v1 * s1 - s2 * v0)
    let db := s4 * (v1 * s0 - v0 * s1) - v2 * (s3 * s0 - s1 * s2) + s2 * (s3 * v0 - s2 * v1)
    let dc := s4 * (s2 * v0 - s1 * v1) - s3 * (s3 * v0 - s2 * v1) + v2 * (s3 * s1 - s2 * s2)
    some (da / det, db / det, dc / det)

/-- Evaluate the fitted quadratic at (normalized) time `t`. -/
def evalQuad (a b c t : ℚ) : ℚ :=
  a * (t * t) + b * t + c

/-- `TagBuffer._calculate_peak_rssi`: finalize a PeakSignal window from the
buffered reads. -/
def calculate_peak_rssi (epc : String) (reads : List TagRead) : Option (String × ℚ × ℚ) :=
  match reads with
  | [] => none
  | r0 :: rest =>
    if reads.length < 3 then
      let max_read := maxByKey (fun r => r.rssi) r0 rest
      some (epc, max_read.timestamp, max_read.rssi)
    else
      let t_min := listMin r0.timestamp (rest.map (fun r => r.timestamp))
      let t_normalized := reads.map (fun r => r.timestamp - t_min)
      let rssi_values := reads.map (fun r => r.rssi)
      match polyfit2 t_normalized rssi_values with
      | none =>
        let max_read := maxByKey (fun r => r.rssi) r0 rest
        some (epc, max_read.timestamp, max_read.rssi)
      | some (a, b, c) =>
        if 0 ≤ a then
          let max_read := maxByKey (fun r => r.rssi) r0 rest
          some (epc, max_read.timestamp, max_read.rssi)
        else
          let t_peak_normalized := -b / (2 * a)
          let t_peak := t_peak_normalized + t_min
          let t_max := listMax r0.timestamp (rest.map (fun r => r.timestamp))
          let t_peak_clamped := max t_min (min t_peak t_max)
          let rssi_peak := evalQuad a b c t_peak_normalized
          some (epc, t_peak_clamped, rssi_peak)

/-- `TagBuffer._finalize_detection`: finalize a buffered window for `epc`;
`now` is `time.time()` at the moment of the call. -/
def finalize_detection (st : TagBuffer) (epc : String) (detection_mode : String)
    (now : ℚ) : TagBuffer × Option (String × ℚ × ℚ) :=
  match dlookup epc st.buffers with
  | none => (st, none)
  | some reads =>
    if reads.isEmpty then (st, none)
    else
      let result : Option (String × ℚ × ℚ) :=
        if detection_mode = "last_seen" then
          match reads with
          | [] => none
          | r0 :: rest =>
            let last_read := maxByKey (fun r => r.timestamp) r0 rest
            some (epc, last_read.timestamp, last_read.rssi)
        else if detection_mode = "peak_rssi" then
          calculate_peak_rssi epc reads
        else none
      ({ st with
          buffers := derase epc st.buffers
          window_start_times := derase epc st.window_start_times
          last_processed := dset epc now st.last_processed }, result)

/-- `TagBuffer.add_read`: add a read, possibly finalizing a detection.
`now` is `time.time()` at the moment of the call. -/
def add_read (st : TagBuffer) (epc : String) (rssi : ℚ) (timestamp : ℚ)
    (detection_mode : String) (now : ℚ) : TagBuffer × Option (String × ℚ × ℚ) :=
  if detection_mode = "first_seen" then
    match dlookup epc st.last_processed with
    | some t =>
      if now - t < st.window_seconds then (st, none)
      else ({ st with last_processed := dset epc now st.last_processed },
            some (epc, timestamp, rssi))
    | none =>
      ({ st with last_processed := dset epc now st.last_processed },
       some (epc, timestamp, rssi))
  else
    let tag_read : TagRead := { epc := epc, rssi := rssi, timestamp := timestamp }
    match dlookup epc st.window_start_times with
    | none =>
      ({ st with
          window_start_times := dset epc now st.window_start_times
          buffers := dset epc [tag_read] st.buffers }, none)
    | some window_start =>
      let st1 := { st with
        buffers := dset epc ((dlookup epc st.buffers).getD [] ++ [tag_read]) st.buffers }
      if now - window_start ≥ st.window_seconds then
        finalize_detection st1 epc detection_mode now
      else (st1, none)

/-- `TagBuffer.check_expired_windows`: finalize every window whose
`detection_window` has elapsed at time `now`. -/
def check_expired_windows (st : TagBuffer) (detection_mode : String) (now : ℚ) :
    TagBuffer × List (String × ℚ × ℚ) :=
  let expired := (st.window_start_times.filter
    (fun p => now - p.2 ≥ st.window_seconds)).map (fun p => p.1)
  expired.foldl
    (fun acc epc =>
      let (st2, r) := finalize_detection acc.1 epc detection_mode now
      match r with
      | some res => (st2, acc.2 ++ [res])
      | none => (st2, acc.2))
    (st, ([] : List (String × ℚ × ℚ)))

/-- State of a `TagDetectionManager` (`tag_detection.py`). -/
structure TagDetectionManager where
  buffers : List (Nat × TagBuffer)
  detection_modes : List (Nat × String)
  window_seconds : List (Nat × ℚ)
deriving DecidableEq, Repr

/-- `TagDetectionManager.__init__`. -/
def TagDetectionManager.init : TagDetectionManager :=
  { buffers := [], detection_modes := [], window_seconds := [] }

/-- `TagDetectionManager.configure_timing_point` (callback dropped: it only
prints). -/
def configure_timing_point (m : TagDetectionManager) (timing_point_id : Nat)
    (detection_mode : String) (window_seconds : ℚ) : TagDetectionManager :=
  { detection_modes := dset timing_point_id detection_mode m.detection_modes
    window_seconds := dset timing_point_id window_seconds m.window_seconds
    buffers := dset timing_point_id (TagBuffer.init window_seconds) m.buffers }

/-- `TagDetectionManager.process_tag_read`.  The source indexes
`self.detection_modes[timing_point_id]` and `self.buffers[timing_point_id]`
directly; after the auto-configuration branch both keys are always present,
so the unreachable missing-key case returns `none` here. -/
def process_tag_read (m : TagDetectionManager) (timing_point_id : Nat)
    (epc : String) (rssi : ℚ) (timestamp : ℚ) (now : ℚ) :
    TagDetectionManager × Option (String × ℚ × ℚ) :=
  let m1 := if (dlookup timing_point_id m.buffers).isNone then
      configure_timing_point m timing_point_id "first_seen" 3
    else m
  match dlookup timing_point_id m1.detection_modes,
        dlookup timing_point_id m1.buffers with
  | some detection_mode, some buf =>
    let (buf2, r) := add_read buf epc rssi timestamp detection_mode now
    ({ m1 with buffers := dset timing_point_id buf2 m1.buffers }, r)
  | _, _ => (m1, none)

/-! ## Helper lemmas on `maxByKey`, `listMin`, `listMax` -/

theorem maxByKey_cons {α : Type} (key : α → ℚ) (x a : α) (as : List α) :
    maxByKey key x (a :: as) = maxByKey key (if key a > key x then a else x) as := rfl

theorem maxByKey_mem {α : Type} (key : α → ℚ) (x : α) (xs : List α) :
    maxByKey key x xs ∈ x :: xs := by
  induction xs generalizing x with
  | nil => simp [maxByKey]
  | cons a as ih =>
    rw [maxByKey_cons]
    rcases List.mem_cons.mp (ih (x := if key a > key x then a else x)) with h1 | h1
    · rw [h1]
      split <;> simp
    · simp [h1]

theorem le_key_maxByKey {α : Type} (key : α → ℚ) (x : α) (xs : List α) :
    ∀ r ∈ x :: xs, key r ≤ key (maxByKey key x xs) := by
  induction xs generalizing x with
  | nil =>
    intro r hr
    rw [List.mem_singleton] at hr
    subst hr
    simp [maxByKey]
  | cons a as ih =>
    intro r hr
    rw [maxByKey_cons]
    have hhead : key (if key a > key x then a else x) ≤
        key (maxByKey key (if key a > key x then a else x) as) :=
      ih _ _ (List.mem_cons_self _ _)
    rcases List.mem_cons.mp hr with h1 | h1
    · subst h1
      refine le_trans ?_ hhead
      split
      · exact le_of_lt (by assumption)
      · exact le_refl _
    rcases List.mem_cons.mp h1 with h2 | h2
    · subst h2
      refine le_trans ?_ hhead
      split
      · exact le_refl _
      · exact le_of_not_lt (by assumption)
    · exact ih _ r (List.mem_cons_of_mem _ h2)

theorem min?_eq_listMin (x : ℚ) (xs : List ℚ) :
    (x :: xs).min? = some (listMin x xs) := rfl

theorem max?_eq_listMax (x : ℚ) (xs : List ℚ) :
    (x :: xs).max? = some (listMax x xs) := rfl

/-! ## Claim C1: PeakSignal finalization -/

/-- Three buffered observations whose exact quadratic fit is
`y = -t² + 6t - 9` (vertex at `t = 3`, outside the observed range `[0,2]`). -/
def readsC1 : List TagRead := [⟨"E", -9, 0⟩, ⟨"E", -4, 1⟩, ⟨"E", -1, 2⟩]

/-- Counterexample to claim C1 as stated.  On `readsC1` the fitted curve is
`-t² + 6t - 9` with vertex `t = 3`, clamped to the observed range gives
timestamp `2`; the fitted curve evaluated at the clamped timestamp is `-1`,
but the code reports signal strength `0` — the fit's value at the unclamped
vertex `t = 3` — so the finalized strength does not equal the fitted curve
at the clamped timestamp. -/
theorem C1_counterexample :
    polyfit2 (readsC1.map (fun r => r.timestamp - 0)) (readsC1.map (fun r => r.rssi))
      = some (-1, 6, -9) ∧
    calculate_peak_rssi "E" readsC1 = some ("E", 2, 0) ∧
    evalQuad (-1) 6 (-9) (2 - 0) = -1 ∧
    calculate_peak_rssi "E" readsC1 ≠ some ("E", 2, evalQuad (-1) 6 (-9) (2 - 0)) := by
  refine ⟨?_, ?_, ?_, ?_⟩ <;> with_unfolding_all decide

/-- Claim C1, amended: for PeakSignal finalization, with fewer than 3
buffered observations the finalized detection is the first observation of
maximum signal strength (exact timestamp and strength); with 3 or more, a
least-squares quadratic over zero-normalized times is fitted, and when it
opens upward (`0 ≤ a`) the maximum-strength observation is used, otherwise
the finalized timestamp is the vertex clamped to the observed time range
while the finalized signal strength is the fitted curve evaluated at the
*unclamped* vertex (amendment: the source evaluates `rssi_peak` at
`t_peak_normalized` computed before clamping, not at the clamped time). -/
theorem C1_peak_signal_finalization (epc : String) (reads : List TagRead)
    (tmin tmax : ℚ)
    (hmin : (reads.map (fun r => r.timestamp)).min? = some tmin)
    (hmax : (reads.map (fun r => r.timestamp)).max? = some tmax) :
    (reads.length < 3 →
      ∃ m ∈ reads, (∀ r ∈ reads, r.rssi ≤ m.rssi) ∧
        calculate_peak_rssi epc reads = some (epc, m.timestamp, m.rssi)) ∧
    (∀ a b c, 3 ≤ reads.length →
      polyfit2 (reads.map (fun r => r.timestamp - tmin)) (reads.map (fun r => r.rssi))
        = some (a, b, c) →
      (0 ≤ a →
        ∃ m ∈ reads, (∀ r ∈ reads, r.rssi ≤ m.rssi) ∧
          calculate_peak_rssi epc reads = some (epc, m.timestamp, m.rssi)) ∧
      (a < 0 →
        calculate_peak_rssi epc reads =
          some (epc, max tmin (min (-b / (2 * a) + tmin) tmax),
            evalQuad a b c (-b / (2 * a))))) := by
  rcases reads with _ | ⟨r0, rest⟩
  · simp at hmin
  rw [List.map_cons, min?_eq_listMin] at hmin
  rw [List.map_cons, max?_eq_listMax] at hmax
  obtain rfl : tmin = listMin r0.timestamp (rest.map fun r => r.timestamp) :=
    (Option.some.inj hmin).symm
  obtain rfl : tmax = listMax r0.timestamp (rest.map fun r => r.timestamp) :=
    (Option.some.inj hmax).symm
  constructor
  · intro hlen
    refine ⟨maxByKey (fun r => r.rssi) r0 rest, maxByKey_mem _ _ _,
      le_key_maxByKey _ _ _, ?_⟩
    simp only [calculate_peak_rssi, if_pos hlen]
  · intro a b c hlen hfit
    have hne3 : ¬ ((r0 :: rest).length < 3) := not_lt.mpr hlen
    constructor
    · intro ha
      refine ⟨maxByKey (fun r => r.rssi) r0 rest, maxByKey_mem _ _ _,
        le_key_maxByKey _ _ _, ?_⟩
      simp only [calculate_peak_rssi, if_neg hne3]
      rw [hfit]
      simp [if_pos ha]
    · intro ha
      simp only [calculate_peak_rssi, if_neg hne3]
      rw [hfit]
      simp [not_le.mpr ha]

/-- Witness for C1: the amended theorem applied to `readsC1` (fit
`(-1, 6, -9)`, vertex 3 clamps to 2, strength is the fit at the unclamped
vertex, namely 0). -/
theorem C1_witness :
    calculate_peak_rssi "E" readsC1 = some ("E", 2, 0) := by
  have h := C1_peak_signal_finalization "E" readsC1 0 2
    (by with_unfolding_all decide) (by with_unfolding_all decide)
  have h2 := (h.2 (-1) 6 (-9) (by with_unfolding_all decide)
    (by with_unfolding_all decide)).2 (by norm_num)
  rw [h2]
  norm_num [evalQuad]

/-! ## Claim C7: one observation yields exactly one finalized detection -/

/-- Claim C7: starting from a fresh buffer, a single observation
`(e, v, ts)` submitted at wall-clock time `t0` yields exactly one
finalized detection carrying `(ts, v)`, in each of the three modes:
under `first_seen` the add itself finalizes it and every later sweep is
empty; under `last_seen`/`peak_rssi` the add buffers it (`none`), every
sweep before the window has elapsed is empty and leaves the state
untouched, the first sweep at or after `t0 + window` finalizes exactly
`[(e, ts, v)]` and closes the window, and every sweep after that is
empty. -/
theorem C7_one_observation_single_finalization (w t0 : ℚ) (e : String)
    (v ts : ℚ) (mode : String)
    (hm : mode = "last_seen" ∨ mode = "peak_rssi") :
    add_read (TagBuffer.init w) e v ts "first_seen" t0
      = (⟨w, [], [], [(e, t0)]⟩, some (e, ts, v)) ∧
    (∀ t, check_expired_windows ⟨w, [], [], [(e, t0)]⟩ "first_seen" t
      = (⟨w, [], [], [(e, t0)]⟩, [])) ∧
    add_read (TagBuffer.init w) e v ts mode t0
      = (⟨w, [(e, [⟨e, v, ts⟩])], [(e, t0)], []⟩, none) ∧
    (∀ t1, t1 - t0 ≥ w →
      check_expired_windows ⟨w, [(e, [⟨e, v, ts⟩])], [(e, t0)], []⟩ mode t1
        = (⟨w, [], [], [(e, t1)]⟩, [(e, ts, v)])) ∧
    (∀ t, t - t0 < w →
      check_expired_windows ⟨w, [(e, [⟨e, v, ts⟩])], [(e, t0)], []⟩ mode t
        = (⟨w, [(e, [⟨e, v, ts⟩])], [(e, t0)], []⟩, [])) ∧
    (∀ t1 t2, check_expired_windows ⟨w, [], [], [(e, t1)]⟩ mode t2
      = (⟨w, [], [], [(e, t1)]⟩, [])) := by
  refine ⟨?_, ?_, ?_, ?_, ?_, ?_⟩
  · simp [add_read, TagBuffer.init, dlookup, dset]
  · intro t
    simp [check_expired_windows]
  · rcases hm with rfl | rfl <;>
      simp [add_read, TagBuffer.init, dlookup, dset]
  · intro t1 h
    rcases hm with rfl | rfl <;>
      simp [check_expired_windows, h, finalize_detection, dlookup, derase, dset,
        maxByKey, calculate_peak_rssi]
  · intro t h
    have h2 : ¬ (t - t0 ≥ w) := not_le.mpr h
    rcases hm with rfl | rfl <;>
      simp [check_expired_windows, h2]
  · intro t1 t2
    simp [check_expired_windows]

/-- Witness for C7: `last_seen`, window 3, observation `(50, -40)` buffered
at time 100, swept at time 103. -/
theorem C7_witness :
    check_expired_windows ⟨3, [("E", [⟨"E", -40, 50⟩])], [("E", 100)], []⟩
      "last_seen" 103 = (⟨3, [], [], [("E", 103)]⟩, [("E", 50, -40)]) := by
  have h := C7_one_observation_single_finalization 3 100 "E" (-40) 50
    "last_seen" (Or.inl rfl)
  exact h.2.2.2.1 103 (by norm_num)

/-! ## Claim C8: silent auto-configuration of unconfigured timing points -/

theorem dlookup_dset_self {α β : Type} [DecidableEq α] (k : α) (v : β) (l : List (α × β)) :
    dlookup k (dset k v l) = some v := by
  induction l with
  | nil => simp [dset, dlookup]
  | cons p l ih =>
    by_cases h : p.1 = k
    · simp [dset, dlookup, h]
    · cases p
      simp_all [dset, dlookup, h]

/-- Claim C8: a tag read for a timing point with no configured buffer is
processed anyway: the manager auto-configures the point with detection
mode `first_seen` and a 3-second window, and the read finalizes
immediately with the observation's timestamp and signal strength. -/
theorem C8_auto_configure_unconfigured_point (m : TagDetectionManager)
    (tp : Nat) (e : String) (v ts now : ℚ)
    (h : dlookup tp m.buffers = none) :
    (process_tag_read m tp e v ts now).2 = some (e, ts, v) ∧
    dlookup tp (process_tag_read m tp e v ts now).1.detection_modes = some "first_seen" ∧
    dlookup tp (process_tag_read m tp e v ts now).1.window_seconds = some 3 := by
  simp [process_tag_read, h, configure_timing_point, dlookup_dset_self,
    add_read, TagBuffer.init, dlookup, dset]

/-- Witness for C8: a fresh manager processing a read for timing point 7. -/
theorem C8_witness :
    (process_tag_read TagDetectionManager.init 7 "E" (-40) 50 1000).2
      = some ("E", 50, -40) ∧
    dlookup 7 (process_tag_read TagDetectionManager.init 7 "E" (-40) 50 1000).1.detection_modes
      = some "first_seen" ∧
    dlookup 7 (process_tag_read TagDetectionManager.init 7 "E" (-40) 50 1000).1.window_seconds
      = some 3 :=
  C8_auto_configure_unconfigured_point TagDetectionManager.init 7 "E" (-40) 50 1000 rfl

/-! ## `reader.py`: LLRP parameter-list parsing

The two scanning loops of `LLRPReader` (`_extract_epc_from_tag_report` and
`_parse_epc_from_payload`) are `while` loops over a byte offset whose step
is data-dependent, and they do not terminate on every input, so they are
embedded fuel-indexed: `none` means the modelled loop has not returned
within `fuel` iterations, `some r` means it returned `r`.  `bytes.hex()`
is modelled as the byte list itself. -/

/-- Big-endian 16-bit word from two bytes (`struct.unpack('!H', ...)`). -/
def word16 (b0 b1 : Nat) : Nat := b0 * 256 + b1

/-- Python byte slice `data[a:b]` (clamping). -/
def pySlice (data : List Nat) (a b : Nat) : List Nat := (data.take b).drop a

/-- `LLRPReader._extract_epc_from_tag_report`, fuel-indexed.  The source's
`if offset + 1 > len(data): break` is unreachable under the loop guard
`offset < len(data)` and is omitted. -/
def extract_epc_fuel : Nat → List Nat → Nat → Option (Option (List Nat))
  | 0, _, _ => none
  | fuel + 1, data, offset =>
    if offset < data.length then
      let b0 := data.getD offset 0
      if b0 &&& 0x80 ≠ 0 then
        let tv_type := b0 &&& 0x7F
        let o1 := offset + 1
        if tv_type = 1 then extract_epc_fuel fuel data (o1 + 1)
        else if tv_type = 6 then extract_epc_fuel fuel data (o1 + 1)
        else if tv_type ∈ [2, 3, 4, 5] then extract_epc_fuel fuel data (o1 + 8)
        else if tv_type ∈ [7, 8, 10, 11, 12, 14, 15, 16] then extract_epc_fuel fuel data (o1 + 2)
        else if tv_type ∈ [9, 13] then extract_epc_fuel fuel data (o1 + 4)
        else some none
      else
        if offset + 4 > data.length then some none
        else
          let first_word := word16 (data.getD offset 0) (data.getD (offset + 1) 0)
          let plen := word16 (data.getD (offset + 2) 0) (data.getD (offset + 3) 0)
          let param_type := first_word &&& 0x3FF
          let content := pySlice data (offset + 4) (offset + plen)
          if param_type = 241 then
            if content.length > 2 then
              let epc_len_bits := word16 (content.getD 0 0) (content.getD 1 0)
              let epc_len_bytes := (epc_len_bits + 7) / 8
              some (some (pySlice content 2 (2 + epc_len_bytes)))
            else extract_epc_fuel fuel data (offset + plen)
          else if param_type = 13 then some (some content)
          else extract_epc_fuel fuel data (offset + plen)
    else some none

/-- `LLRPReader._parse_epc_from_payload`, fuel-indexed; the inner
tag-report scan shares the fuel.  Python's `if epc:` append guard drops
both `None` and the empty string, modelled by the `epc = []` test. -/
def parse_epc_fuel : Nat → List Nat → Nat → List (List Nat) → Option (List (List Nat))
  | 0, _, _, _ => none
  | fuel + 1, payload, offset, epcs =>
    if offset < payload.length then
      if offset + 4 > payload.length then some epcs
      else
        let first_word := word16 (payload.getD offset 0) (payload.getD (offset + 1) 0)
        let plen := word16 (payload.getD (offset + 2) 0) (payload.getD (offset + 3) 0)
        let param_type := first_word &&& 0x3FF
        if param_type = 240 then
          let content := pySlice payload (offset + 4) (offset + plen)
          match extract_epc_fuel fuel content 0 with
          | none => none
          | some r =>
            let epcs2 := match r with
              | some epc => if epc = [] then epcs else epcs ++ [epc]
              | none => epcs
            parse_epc_fuel fuel payload (offset + plen) epcs2
        else parse_epc_fuel fuel payload (offset + plen) epcs
    else some epcs

/-! ## Claim C5: forward-compatible parameter skipping -/

/-- Counterexample to claim C5 as stated: an EPC-96 (type 13) TLV
parameter alone is extracted, but prefixing a single unknown TV parameter
(type `0x7F`, high bit set) makes `_extract_epc_from_tag_report` stop the
scan (`break`) and return no EPC: unknown single-byte-tag (TV) parameter
types are not skipped — TV parameters carry no declared length at all —
so the claimed forward-compatible skipping fails for the TV encoding. -/
theorem C5_counterexample :
    extract_epc_fuel 11 [0x00, 0x0D, 0x00, 0x0A, 0xAA, 0xBB, 0xCC, 0xDD, 0xEE, 0xFF] 0
      = some (some [0xAA, 0xBB, 0xCC, 0xDD, 0xEE, 0xFF]) ∧
    extract_epc_fuel 12
      ([0xFF] ++ [0x00, 0x0D, 0x00, 0x0A, 0xAA, 0xBB, 0xCC, 0xDD, 0xEE, 0xFF]) 0
      = some none := by
  constructor <;> with_unfolding_all decide

/-- Claim C5, amended: length-prefixed (TLV) parameters of unrecognized
type are skipped using their declared length and the scan continues, both
inside a tag report (types other than EPCData 241 / EPC-96 13) and in the
outer payload scan (types other than TagReportData 240); unknown
single-byte-tag (TV) parameter types, which carry no declared length,
instead terminate the tag-report scan (see the counterexample). -/
theorem C5_tlv_skip_unknown_types :
    (∀ (fuel : Nat) (data : List Nat) (offset : Nat),
      offset < data.length →
      ¬ (offset + 4 > data.length) →
      (data.getD offset 0) &&& 0x80 = 0 →
      (word16 (data.getD offset 0) (data.getD (offset + 1) 0)) &&& 0x3FF ≠ 241 →
      (word16 (data.getD offset 0) (data.getD (offset + 1) 0)) &&& 0x3FF ≠ 13 →
      extract_epc_fuel (fuel + 1) data offset
        = extract_epc_fuel fuel data
            (offset + word16 (data.getD (offset + 2) 0) (data.getD (offset + 3) 0))) ∧
    (∀ (fuel : Nat) (payload : List Nat) (offset : Nat) (epcs : List (List Nat)),
      offset < payload.length →
      ¬ (offset + 4 > payload.length) →
      (word16 (payload.getD offset 0) (payload.getD (offset + 1) 0)) &&& 0x3FF ≠ 240 →
      parse_epc_fuel (fuel + 1) payload offset epcs
        = parse_epc_fuel fuel payload
            (offset + word16 (payload.getD (offset + 2) 0) (payload.getD (offset + 3) 0)) epcs) := by
  constructor
  · intro fuel data offset h1 h2 hb ht1 ht2
    simp only [extract_epc_fuel]
    rw [if_pos h1, hb]
    rw [if_neg (by simp), if_neg h2, if_neg ht1, if_neg ht2]
  · intro fuel payload offset epcs h1 h2 ht
    simp only [parse_epc_fuel]
    rw [if_pos h1, if_neg h2, if_neg ht]

/-- Witness for C5: a TLV parameter of unknown type 99 and declared
length 0 is "skipped" in place inside a tag report, and a TLV parameter of
unknown type 1 and declared length 5 is skipped in the payload scan. -/
theorem C5_witness :
    extract_epc_fuel 2 [0x00, 0x63, 0x00, 0x00] 0
      = extract_epc_fuel 1 [0x00, 0x63, 0x00, 0x00] 0 ∧
    parse_epc_fuel 2 [0x00, 0x01, 0x00, 0x05, 0x09] 0 []
      = parse_epc_fuel 1 [0x00, 0x01, 0x00, 0x05, 0x09] 5 [] := by
  constructor
  · have h := C5_tlv_skip_unknown_types.1 1 [0x00, 0x63, 0x00, 0x00] 0
      (by decide) (by decide) (by decide) (by decide) (by decide)
    simpa using h
  · have h := C5_tlv_skip_unknown_types.2 1 [0x00, 0x01, 0x00, 0x05, 0x09] 0 []
      (by decide) (by decide) (by decide)
    simpa using h

/-! ## Claim C10: termination of the payload scan -/

/-- Claim C10 is false of the code: on the payload `00 00 00 00` — a
single TLV parameter whose declared length field is 0 — the scan position
never advances (`offset += length` adds 0) and
`_parse_epc_from_payload` loops forever: for every fuel bound the
fuel-indexed embedding fails to return.  The claimed strict advance on a
zero declared length does not happen. -/
theorem C10_payload_scan_divergence :
    ∀ (fuel : Nat) (epcs : List (List Nat)),
      parse_epc_fuel fuel [0, 0, 0, 0] 0 epcs = none := by
  intro fuel
  induction fuel with
  | zero => intro epcs; rfl
  | succ n ih =>
    intro epcs
    simpa [parse_epc_fuel, word16, pySlice] using ih epcs

/-! ## `race_control.py`: data model and per-participant recompute -/

/-- `models.ParticipantStatus`. -/
inductive ParticipantStatus
  | registered | started | finished | dnf | dns
deriving DecidableEq, Repr

/-- `models.StartMode`. -/
inductive StartMode
  | mass_start | chip_start
deriving DecidableEq, Repr

/-- `models.TimingPoint` (the fields the pipeline reads). -/
structure TimingPoint where
  id : Nat
  name : String
  is_start : Bool
  is_finish : Bool
  order : Nat
deriving DecidableEq, Repr

/-- `models.TimeRecord` (with its timing point resolved). -/
structure TimeRecord where
  timing_point : TimingPoint
  timestamp : ℚ
deriving DecidableEq, Repr

/-- One age-group definition from the race's `age_groups` JSON. -/
structure AgeGroup where
  name : String
  min_age : Int
  max_age : Int
deriving DecidableEq, Repr

/-- `models.Race` (the fields the pipeline reads); `timing_points` is the
race's checkpoint list sorted by `order`, as the source queries it. -/
structure Race where
  start_mode : StartMode
  start_time : Option ℚ
  age_groups : List AgeGroup
  timing_points : List TimingPoint
deriving DecidableEq, Repr

/-- `models.Participant` (the fields the results engine reads). -/
structure Participant where
  id : Nat
  age : Option Int
  gender : Option String
deriving DecidableEq, Repr

/-- `models.RaceResult` row with its participant resolved. -/
structure RaceResult where
  participant : Participant
  category : String
  status : ParticipantStatus
  start_time : Option ℚ
  finish_time : Option ℚ
  total_time : Option ℚ
  split_times : List (String × ℚ)
  overall_rank : Option Nat
  category_rank : Option Nat
  gender_rank : Option Nat
deriving DecidableEq, Repr

/-- State of the start/finish scan inside `_update_result`. -/
structure ScanState where
  split_times : List (String × ℚ)
  start_time : Option ℚ
  finish_time : Option ℚ
  status : ParticipantStatus
deriving DecidableEq, Repr

/-- One iteration of the `for time_record in times` loop of
`_update_result`: only the first record per timing-point name counts; a
start point sets `start_time`/`Started`, else a finish point sets
`finish_time`/`Finished`. -/
def scanStep (st : ScanState) (tr : TimeRecord) : ScanState :=
  let tp := tr.timing_point
  if (dlookup tp.name st.split_times).isSome then st
  else
    let st1 := { st with split_times := dset tp.name tr.timestamp st.split_times }
    if tp.is_start then { st1 with start_time := some tr.timestamp, status := .started }
    else if tp.is_finish then { st1 with finish_time := some tr.timestamp, status := .finished }
    else st1

/-- `RaceControl._update_result` on a result row: recompute status, times,
splits and total from the participant's TimeRecords (`times` must be given
in timestamp order, as the source's `ORDER BY timestamp` produces them),
the race's gun `start_time`, and the row's previous status.  A missing row
is modelled by passing a freshly-created row (status `registered`).
Python datetimes are always truthy, so `if start_time and finish_time`
is a pure `None` test. -/
def update_result (race : Race) (times : List TimeRecord) (result : RaceResult) : RaceResult :=
  let init : ScanState :=
    match race.start_time with
    | some g => { split_times := [], start_time := some g, finish_time := none, status := .started }
    | none => { split_times := [], start_time := none, finish_time := none, status := .registered }
  let s := times.foldl scanStep init
  let status :=
    if (result.status = .dnf ∨ result.status = .dns) ∧ s.status ≠ .finished then result.status
    else s.status
  let total : Option ℚ :=
    match s.start_time, s.finish_time with
    | some st, some ft => some (ft - st)
    | _, _ => none
  { result with
      status := status
      start_time := s.start_time
      finish_time := s.finish_time
      split_times := s.split_times
      total_time := total }

/-- A start checkpoint (order 1) shared by the concrete scenarios below. -/
def startTP : TimingPoint := ⟨1, "Start", true, false, 1⟩

/-- A finish checkpoint (order 2) shared by the concrete scenarios below. -/
def finishTP : TimingPoint := ⟨2, "Finish", false, true, 2⟩

/-- A freshly created result row (`RaceResult(..., status=REGISTERED)`). -/
def freshRow : RaceResult :=
  ⟨⟨1, none, none⟩, "Open", .registered, none, none, none, [], none, none, none⟩

/-- A mass-start race with no gun time and no age groups. -/
def raceC2 : Race := ⟨.mass_start, none, [], [startTP, finishTP]⟩

/-! ## Claim C2: the ResultRow total-time invariant -/

/-- Counterexample to claim C2 as stated: with a finish-point record at
time 100 followed (in timestamp order) by a start-point record at time
200, `_update_result` leaves status `Started` (the start record is
processed last) yet stores `total_time = 100 − 200 = −100`, which is
non-null while status is not `Finished` — refuting
`non-null total_time ⇔ status = Finished with both times set`. -/
theorem C2_counterexample :
    (update_result raceC2 [⟨finishTP, 100⟩, ⟨startTP, 200⟩] freshRow).total_time
      = some (-100) ∧
    (update_result raceC2 [⟨finishTP, 100⟩, ⟨startTP, 200⟩] freshRow).status
      = .started ∧
    (update_result raceC2 [⟨finishTP, 100⟩, ⟨startTP, 200⟩] freshRow).status
      ≠ .finished := by
  refine ⟨?_, ?_, ?_⟩ <;> with_unfolding_all decide

/-- Claim C2, amended: after every per-participant recompute, `total_time`
is non-null iff both `start_time` and `finish_time` are set (the status
may then be `Started`, `DNF` or `DNS` rather than `Finished` when the
finish record precedes the start record in timestamp order or a prior
DNF/DNS mark is preserved); whenever `total_time` is non-null it equals
`finish_time − start_time`; and the `Finished`-with-both-times direction
of the original claim still holds. -/
theorem C2_total_time_invariant (race : Race) (times : List TimeRecord) (result : RaceResult) :
    ((update_result race times result).total_time ≠ none ↔
      (update_result race times result).start_time ≠ none ∧
      (update_result race times result).finish_time ≠ none) ∧
    (∀ s f, (update_result race times result).start_time = some s →
      (update_result race times result).finish_time = some f →
      (update_result race times result).total_time = some (f - s)) ∧
    ((update_result race times result).status = .finished ∧
      (update_result race times result).start_time ≠ none ∧
      (update_result race times result).finish_time ≠ none →
      (update_result race times result).total_time ≠ none) := by
  simp only [update_result]
  rcases h1 : (times.foldl scanStep _).start_time with _ | s <;>
    rcases h2 : (times.foldl scanStep _).finish_time with _ | f <;>
    simp_all

/-- Witness for C2: a normal start-then-finish pair gives
`total_time = 160 − 100 = 60`. -/
theorem C2_witness :
    (update_result raceC2 [⟨startTP, 100⟩, ⟨finishTP, 160⟩] freshRow).total_time
      = some 60 := by
  have h := (C2_total_time_invariant raceC2 [⟨startTP, 100⟩, ⟨finishTP, 160⟩] freshRow).2.1
    100 160 (by with_unfolding_all decide) (by with_unfolding_all decide)
  rw [h]
  norm_num

/-! ## Claim C9: gun start forces Started even with zero TimeRecords -/

theorem scanStep_status_cases (st : ScanState) (tr : TimeRecord) :
    (scanStep st tr).status = st.status ∨ (scanStep st tr).status = .started ∨
      (scanStep st tr).status = .finished := by
  simp only [scanStep]
  split
  · left; rfl
  · split
    · right; left; rfl
    · split
      · right; right; rfl
      · left; rfl

theorem foldl_scan_status_ne (times : List TimeRecord) (st : ScanState)
    (h : st.status ≠ .registered) :
    (times.foldl scanStep st).status ≠ .registered := by
  induction times generalizing st with
  | nil => exact h
  | cons t ts ih =>
    rw [List.foldl_cons]
    refine ih _ ?_
    rcases scanStep_status_cases st t with hc | hc | hc <;> rw [hc] <;> simp_all

/-- Claim C9: when the race has a gun `start_time` and the participant is
not already marked DNF/DNS, the recompute with zero TimeRecords assigns
`start_time` = gun time and status `Started`; and with any TimeRecords at
all the participant is never left `Registered`. -/
theorem C9_gun_start_never_registered (race : Race) (g : ℚ) (result : RaceResult)
    (hg : race.start_time = some g)
    (h1 : result.status ≠ .dnf) (h2 : result.status ≠ .dns) :
    (update_result race [] result).start_time = some g ∧
    (update_result race [] result).status = .started ∧
    ∀ times, (update_result race times result).status ≠ .registered := by
  refine ⟨?_, ?_, ?_⟩
  · simp [update_result, hg]
  · simp [update_result, hg, h1, h2]
  · intro times
    simp only [update_result, hg]
    have hs : (times.foldl scanStep
        { split_times := [], start_time := some g, finish_time := none,
          status := .started }).status ≠ .registered :=
      foldl_scan_status_ne times _ (by simp)
    split
    · simp_all
    · exact hs

/-- A race identical to `raceC2` but with a gun start time of 500. -/
def raceC9 : Race := ⟨.mass_start, some 500, [], [startTP, finishTP]⟩

/-- Witness for C9: gun time 500, fresh row, zero records. -/
theorem C9_witness :
    (update_result raceC9 [] freshRow).start_time = some 500 ∧
    (update_result raceC9 [] freshRow).status = .started ∧
    (update_result raceC9 [⟨finishTP, 600⟩] freshRow).status ≠ .registered := by
  have h := C9_gun_start_never_registered raceC9 500 freshRow rfl
    (by with_unfolding_all decide) (by with_unfolding_all decide)
  exact ⟨h.1, h.2.1, h.2.2 [⟨finishTP, 600⟩]⟩

/-! ## Claim C6: chip-start first detection routes to the start checkpoint -/

/-- `RaceControl._get_next_timing_point`: the first checkpoint, in
`order`, with no TimeRecord yet for this participant. -/
def get_next_timing_point (race : Race) (times : List TimeRecord) : Option TimingPoint :=
  race.timing_points.find?
    (fun p => ¬ (times.map (fun tr => tr.timing_point.id)).contains p.id)

/-- `RaceControl._process_finalized_tag`, routing decision: the timing
point the new TimeRecord is written at (`none` = discarded).  `times` are
the participant's existing TimeRecords in this race.  `station_id` is
deliberately unused: on the chip-start first-read path the source never
consults it, and on the generic path a station mismatch only logs a
warning and records anyway. -/
def process_finalized_tag_route (race : Race) (times : List TimeRecord)
    (station_id : Option Nat) : Option TimingPoint :=
  if race.start_mode = .chip_start ∧ times.length = 0 then
    match race.timing_points.find? (fun p => p.is_start) with
    | some sp => some sp
    | none => get_next_timing_point race times
  else get_next_timing_point race times

/-- A chip-start race over the same two checkpoints. -/
def raceC6 : Race := ⟨.chip_start, none, [], [startTP, finishTP]⟩

/-- Counterexample to claim C6 as stated: a participant already marked DNS
(zero TimeRecords) gets their first detection routed to the start
checkpoint, but the recomputed row keeps status `DNS`, not `Started` —
the unconditional "with status Started" fails for pre-marked DNF/DNS
participants. -/
theorem C6_counterexample :
    process_finalized_tag_route raceC6 [] (some 99) = some startTP ∧
    (update_result raceC6 [⟨startTP, 100⟩] { freshRow with status := .dns }).status
      = .dns ∧
    (update_result raceC6 [⟨startTP, 100⟩] { freshRow with status := .dns }).status
      ≠ .started := by
  refine ⟨?_, ?_, ?_⟩ <;> with_unfolding_all decide

/-- Claim C6, amended: in a chip-start race with a designated start
checkpoint, a participant's very first finalized detection (zero prior
TimeRecords) is routed to the start checkpoint regardless of the
reporting station, and — provided the participant is not already marked
DNF or DNS — the recomputed row has status `Started` with `start_time`
equal to the detection's timestamp. -/
theorem C6_chip_start_first_read (race : Race) (sp : TimingPoint)
    (station_id : Option Nat) (result : RaceResult) (ts : ℚ)
    (hmode : race.start_mode = .chip_start)
    (hsp : race.timing_points.find? (fun p => p.is_start) = some sp) :
    process_finalized_tag_route race [] station_id = some sp ∧
    sp.is_start = true ∧
    (result.status ≠ .dnf → result.status ≠ .dns →
      (update_result race [⟨sp, ts⟩] result).status = .started ∧
      (update_result race [⟨sp, ts⟩] result).start_time = some ts) := by
  refine ⟨?_, ?_, ?_⟩
  · simp [process_finalized_tag_route, hmode, hsp]
  · simpa using List.find?_some hsp
  · intro h1 h2
    have hst : sp.is_start = true := by simpa using List.find?_some hsp
    cases hg : race.start_time <;>
      simp [update_result, scanStep, hst, dlookup, h1, h2, hg]

/-- Witness for C6: the chip-start race `raceC6`, station 99, detection at
time 100 on a fresh row. -/
theorem C6_witness :
    process_finalized_tag_route raceC6 [] (some 99) = some startTP ∧
    (update_result raceC6 [⟨startTP, 100⟩] freshRow).status = .started ∧
    (update_result raceC6 [⟨startTP, 100⟩] freshRow).start_time = some 100 := by
  have h := C6_chip_start_first_read raceC6 startTP (some 99) freshRow 100 rfl
    (by with_unfolding_all decide)
  have h3 := h.2.2 (by with_unfolding_all decide) (by with_unfolding_all decide)
  exact ⟨h.1, h3.1, h3.2⟩

/-! ## `race_control.py`: category computation, aging down, rankings -/

/-- `RaceControl._calculate_category`.  Python truthiness: an age of
`None` **or `0`** falls back to `"Open"`, as does an empty age-group
list or an age matching no group. -/
def calculate_category (age : Option Int) (age_groups : List AgeGroup) : String :=
  match age with
  | none => "Open"
  | some a =>
    if a = 0 then "Open"
    else if age_groups.isEmpty then "Open"
    else
      match age_groups.find? (fun g => g.min_age ≤ a ∧ a ≤ g.max_age) with
      | some g => g.name
      | none => "Open"

/-- Stable insertion of `x` into a sorted list: `x` goes before the first
element not strictly below it. -/
def insertByLt {α : Type} (lt : α → α → Bool) (x : α) : List α → List α
  | [] => [x]
  | y :: ys => if lt y x then y :: insertByLt lt x ys else x :: y :: ys

/-- Stable sort by a strict comparison (models python's stable `sorted` /
`list.sort`: any two stable sorts by the same key agree). -/
def sortByLt {α : Type} (lt : α → α → Bool) : List α → List α
  | [] => []
  | x :: xs => insertByLt lt x (sortByLt lt xs)

/-- The aging-down sort key `r.total_time if r.total_time else
float('inf')` (line 504): python truthiness sends both `None` **and `0`**
to infinity, modelled as `none`. -/
def agingSortKey (r : RaceResult) : Option ℚ :=
  match r.total_time with
  | some t => if t = 0 then none else some t
  | none => none

/-- Comparison of optional keys where `none` is `+∞`. -/
def optLtInf (a b : Option ℚ) : Bool :=
  match a, b with
  | some x, some y => decide (x < y)
  | some _, none => true
  | none, _ => false

/-- `young_results.sort(...); current_winner = young_results[0]`: the
first element attaining the minimal aging key (stable sort + head). -/
def minByAgingKey (x : RaceResult) (xs : List RaceResult) : RaceResult :=
  xs.foldl (fun b a => if optLtInf (agingSortKey a) (agingSortKey b) then a else b) x

/-- The mover condition
`older_result.total_time and older_result.total_time < current_winner_time`:
a truthy (`≠ None`, `≠ 0`) total time strictly below the young winner's
time, for a member of the older group `og`. -/
def fasterPred (og : AgeGroup) (wt : ℚ) (r : RaceResult) : Bool :=
  r.category = og.name ∧ r.total_time ≠ none ∧ r.total_time ≠ some 0 ∧
    r.total_time.getD 0 < wt

/-- The inner two loops of `_apply_aging_down`: scan the older groups in
order and, within each, the finished list in order, for the first
participant satisfying `fasterPred`; return their index in `finished`. -/
def findFasterOlder (finished : List RaceResult) (older : List AgeGroup) (wt : ℚ) :
    Option Nat :=
  match older with
  | [] => none
  | og :: rest =>
    match finished.enum.find? (fun p => fasterPred og wt p.2) with
    | some (i, _) => some i
    | none => findFasterOlder finished rest wt

/-- One scan of the `for i, young_group in enumerate(...)` loop of
`_apply_aging_down`: the first move found — `(index into finished, name
of the younger group)` — or `none` when a full pass makes no move.
Groups whose winner time is `None` or `0` (python-falsy) are skipped. -/
def agingPass (finished : List RaceResult) : List AgeGroup → Option (Nat × String)
  | [] => none
  | g :: rest =>
    match finished.filter (fun r => r.category = g.name) with
    | [] => agingPass finished rest
    | y0 :: ys =>
      let winner := minByAgingKey y0 ys
      match winner.total_time with
      | none => agingPass finished rest
      | some wt =>
        if wt = 0 then agingPass finished rest
        else
          match findFasterOlder finished rest wt with
          | some i => some (i, g.name)
          | none => agingPass finished rest

/-- Reassign the category of the row at position `i`
(`older_result.category = young_category`). -/
def setCategory (l : List RaceResult) (i : Nat) (cat : String) : List RaceResult :=
  match l.get? i with
  | some r => l.set i { r with category := cat }
  | none => l

/-- The `for iteration in range(max_iterations)` loop of
`_apply_aging_down`: stop early when a pass makes no move, else move one
participant and restart from the youngest group. -/
def applyAgingDownLoop (groups : List AgeGroup) : Nat → List RaceResult → List RaceResult
  | 0, finished => finished
  | fuel + 1, finished =>
    match agingPass finished groups with
    | none => finished
    | some (i, cat) => applyAgingDownLoop groups fuel (setCategory finished i cat)

/-- `RaceControl._apply_aging_down` (`max_iterations = 10`; groups are
sorted youngest-first by `min` age, stably). -/
def apply_aging_down (age_groups : List AgeGroup) (finished : List RaceResult) :
    List RaceResult :=
  applyAgingDownLoop (sortByLt (fun g h => decide (g.min_age < h.min_age)) age_groups)
    10 finished

/-- `RaceResult.status ∈ [FINISHED, STARTED]`: the rows the ranking pass
considers. -/
def isRanked (r : RaceResult) : Bool := r.status = .finished ∨ r.status = .started

/-- The category-refresh step at the top of `_calculate_rankings`: a
specific (non-"Open") recomputed category always overrides; a recomputed
"Open" only overrides when the stored category is already "Open". -/
def recatRow (race : Race) (r : RaceResult) : RaceResult :=
  let new_category := calculate_category r.participant.age race.age_groups
  if new_category ≠ "Open" then { r with category := new_category }
  else if r.category = "Open" then { r with category := new_category }
  else r

/-- In-place mutation of the rows satisfying `p` (the source mutates the
filtered sublist's objects): replace them, in order, by the rows of
`repl` (which the callers produce by transforming `l.filter p`
length-preservingly). -/
def spliceByPred {α : Type} (p : α → Bool) : List α → List α → List α
  | [], _ => []
  | x :: xs, repl =>
    if p x then
      match repl with
      | r :: rs => r :: spliceByPred p xs rs
      | [] => x :: spliceByPred p xs []
    else x :: spliceByPred p xs repl

/-- The started-participant progress query of `_calculate_rankings`: the
participant's record with the highest checkpoint `order` (first in the
stored record order among ties); `none` when the participant has no
records — the source's `(-1, datetime.max)` default. -/
def progressOf (records : List (Nat × TimeRecord)) (pid : Nat) : Option (Nat × ℚ) :=
  match records.filter (fun p => p.1 = pid) with
  | [] => none
  | p :: ps =>
    let best := ps.foldl (fun b a =>
      if a.2.timing_point.order > b.2.timing_point.order then a else b) p
    some (best.2.timing_point.order, best.2.timestamp)

/-- Sort comparison for started participants: key `(-order, timestamp)`
ascending, i.e. higher checkpoint order first, earlier arrival first on
ties; no records (`none`) sorts last. -/
def progressLt (a b : Option (Nat × ℚ)) : Bool :=
  match a, b with
  | some (oa, ta), some (ob, tb) => decide (oa > ob) || (decide (oa = ob) && decide (ta < tb))
  | some _, none => true
  | none, _ => false

/-- Finished-results sort: `total_time` ascending with `None` (`is not
None` test here, not truthiness) as infinity. -/
def finLt (a b : RaceResult) : Bool := optLtInf a.total_time b.total_time

/-- Python `participant and participant.gender` (gender `None` or `""` is
falsy). -/
def truthyGender (r : RaceResult) : Bool :=
  match r.participant.gender with
  | some g => ¬ (g = "")
  | none => false

/-- Rank assignment over the concatenated `finished + started` list
(paired with each row's position in the full row list): `overall_rank` by
position; `category_rank` by position within the row's category in ranked
order (python dicts preserve insertion order, so this equals
1 + the number of earlier ranked rows of the same category);
`gender_rank` likewise among truthy-gender rows of the same gender —
rows without a truthy gender keep their stored `gender_rank`. -/
def rankedAssign (ranked : List (Nat × RaceResult)) : List (Nat × RaceResult) :=
  ranked.enum.map (fun q =>
    let pos := q.1
    let i := q.2.1
    let r := q.2.2
    let before := (ranked.take pos).map (fun p => p.2)
    (i, { r with
      overall_rank := some (pos + 1)
      category_rank := some ((before.filter (fun s => s.category = r.category)).length + 1)
      gender_rank :=
        if truthyGender r then
          some ((before.filter (fun s =>
            truthyGender s ∧ s.participant.gender = r.participant.gender)).length + 1)
        else r.gender_rank }))

/-- First phase of `_calculate_rankings`: refresh the categories of the
Finished/Started rows. -/
def recatPhase (race : Race) (rows : List RaceResult) : List RaceResult :=
  rows.map (fun r => if isRanked r then recatRow race r else r)

/-- Second phase of `_calculate_rankings`: apply aging-down among the
Finished rows when there are any and the race defines age groups (the
source mutates the filtered rows in place, modelled by splicing the aged
rows back into their positions). -/
def agingPhase (race : Race) (rows1 : List RaceResult) : List RaceResult :=
  let finished1 := rows1.filter (fun r => r.status = .finished)
  let aged :=
    if ¬ finished1.isEmpty ∧ ¬ race.age_groups.isEmpty then
      apply_aging_down race.age_groups finished1
    else finished1
  spliceByPred (fun r => r.status = .finished) rows1 aged

/-- The sorted, position-tagged `finished_results` list. -/
def sortedFin (rows2 : List RaceResult) : List (Nat × RaceResult) :=
  sortByLt (fun a b => finLt a.2 b.2)
    (rows2.enum.filter (fun p => p.2.status = .finished))

/-- The sorted, position-tagged `started_results` list. -/
def sortedStarted (records : List (Nat × TimeRecord)) (rows2 : List RaceResult) :
    List (Nat × RaceResult) :=
  sortByLt (fun a b =>
      progressLt (progressOf records a.2.participant.id)
        (progressOf records b.2.participant.id))
    (rows2.enum.filter (fun p => p.2.status = .started))

/-- Third phase of `_calculate_rankings`: sort Finished by total time and
Started by progress, assign the three ranks over the concatenation, and
clear the ranks of all non-ranked rows. -/
def rankPhase (records : List (Nat × TimeRecord))
    (rows2 : List RaceResult) : List RaceResult :=
  let asg := rankedAssign (sortedFin rows2 ++ sortedStarted records rows2)
  rows2.enum.map (fun p =>
    match dlookup p.1 asg with
    | some r2 => r2
    | none =>
      if isRanked p.2 then p.2
      else { p.2 with overall_rank := none, category_rank := none, gender_rank := none })

/-- `RaceControl._calculate_rankings` as a pure transformation of the
race's result-row list (`rows`, in stored order) given the race's
TimeRecords (`records`, as `(participant_id, record)` pairs in stored
order): refresh categories of Finished/Started rows, apply aging-down
among Finished rows when the race defines age groups, sort Finished by
total time then Started by progress, assign the three ranks, and clear
the ranks of all other rows. -/
def calculate_rankings (race : Race) (records : List (Nat × TimeRecord))
    (rows : List RaceResult) : List RaceResult :=
  rankPhase records (agingPhase race (recatPhase race rows))

/-- `RaceControl.calculate_results`: recompute every participant's row
(each from their own TimeRecords, in stored — timestamp — order), then run
the ranking pass once.  In the steady state modelled here every
registered participant already has a row, one per participant, so the
per-participant loop is a map over the row list. -/
def calculate_results (race : Race) (records : List (Nat × TimeRecord))
    (rows : List RaceResult) : List RaceResult :=
  let rows1 := rows.map (fun r =>
    update_result race ((records.filter (fun p => p.1 = r.participant.id)).map
      (fun p => p.2)) r)
  calculate_rankings race records rows1

/-! ## Order lemmas for `optLtInf` and the aging-down argmin -/

theorem optLtInf_irrefl (a : Option ℚ) : optLtInf a a = false := by
  cases a <;> simp [optLtInf]

theorem optLtInf_trans {a b c : Option ℚ} (h1 : optLtInf a b = true)
    (h2 : optLtInf b c = true) : optLtInf a c = true := by
  cases a <;> cases b <;> cases c <;> simp_all [optLtInf] <;> linarith

theorem optLtInf_le_lt_trans {a b c : Option ℚ} (h1 : optLtInf b a = false)
    (h2 : optLtInf b c = true) : optLtInf a c = true := by
  cases a <;> cases b <;> cases c <;> simp_all [optLtInf] <;> linarith

theorem minByAgingKey_cons (x y : RaceResult) (ys : List RaceResult) :
    minByAgingKey x (y :: ys)
      = minByAgingKey (if optLtInf (agingSortKey y) (agingSortKey x) then y else x) ys := rfl

theorem minByAgingKey_mem (x : RaceResult) (xs : List RaceResult) :
    minByAgingKey x xs ∈ x :: xs := by
  induction xs generalizing x with
  | nil => simp [minByAgingKey]
  | cons y ys ih =>
    rw [minByAgingKey_cons]
    rcases List.mem_cons.mp (ih (if optLtInf (agingSortKey y) (agingSortKey x) then y else x))
      with h1 | h1
    · rw [h1]
      split <;> simp
    · simp [h1]

theorem minByAgingKey_not_lt (x : RaceResult) (xs : List RaceResult) :
    ∀ r ∈ x :: xs,
      optLtInf (agingSortKey r) (agingSortKey (minByAgingKey x xs)) = false := by
  induction xs generalizing x with
  | nil =>
    intro r hr
    rw [List.mem_singleton] at hr
    subst hr
    simp [minByAgingKey, optLtInf_irrefl]
  | cons y ys ih =>
    intro r hr
    rw [minByAgingKey_cons]
    have hhead := ih (if optLtInf (agingSortKey y) (agingSortKey x) then y else x) _
      (List.mem_cons_self _ _)
    rcases List.mem_cons.mp hr with h1 | h1
    · subst h1
      by_cases hc : optLtInf (agingSortKey y) (agingSortKey r) = true
      · rw [if_pos hc] at hhead ⊢
        by_contra hlt
        rw [Bool.not_eq_false] at hlt
        exact absurd (optLtInf_trans hc hlt) (by simp [hhead])
      · rw [Bool.not_eq_true] at hc
        rw [if_neg (by simp [hc])] at hhead ⊢
        exact hhead
    rcases List.mem_cons.mp h1 with h2 | h2
    · subst h2
      by_cases hc : optLtInf (agingSortKey r) (agingSortKey x) = true
      · rw [if_pos hc] at hhead ⊢
        exact hhead
      · rw [Bool.not_eq_true] at hc
        rw [if_neg (by simp [hc])] at hhead ⊢
        by_contra hlt
        rw [Bool.not_eq_false] at hlt
        exact absurd (optLtInf_le_lt_trans hc hlt) (by simp [hhead])
    · exact ih _ r (List.mem_cons_of_mem _ h2)

theorem filterMap_agingSortKey_eq (l : List RaceResult) :
    (l.filterMap (fun r => r.total_time)).filter (fun t => ¬ (t = 0))
      = l.filterMap agingSortKey := by
  induction l with
  | nil => rfl
  | cons r t ih =>
    rcases hr : r.total_time with _ | v
    · simpa [agingSortKey, hr] using ih
    · simp only [decide_not] at ih
      by_cases hv : v = 0
      · simp [agingSortKey, hr, hv, ih]
      · simp [agingSortKey, hr, hv, ih]

theorem min?_filterMap_key (x : RaceResult) (xs : List RaceResult) :
    ((x :: xs).filterMap agingSortKey).min?
      = agingSortKey (minByAgingKey x xs) := by
  rcases hw : agingSortKey (minByAgingKey x xs) with _ | m
  · rw [List.min?_eq_none_iff, List.filterMap_eq_nil_iff]
    intro r hr
    have h := minByAgingKey_not_lt x xs r hr
    rw [hw] at h
    rcases hk : agingSortKey r with _ | v
    · rfl
    · rw [hk] at h
      simp [optLtInf] at h
  · haveI : Std.Antisymm (fun (x1 x2 : ℚ) => x1 ≤ x2) :=
      ⟨fun h1 h2 => le_antisymm h1 h2⟩
    rw [List.min?_eq_some_iff (fun a => le_refl a) (fun a b => min_choice a b)
      (fun a b c => le_min_iff)]
    constructor
    · rw [List.mem_filterMap]
      exact ⟨minByAgingKey x xs, minByAgingKey_mem x xs, hw⟩
    · intro b hb
      rw [List.mem_filterMap] at hb
      obtain ⟨r, hr, hkr⟩ := hb
      have h := minByAgingKey_not_lt x xs r hr
      rw [hw, hkr] at h
      simp [optLtInf] at h
      linarith

theorem enumFrom_find?_fst {α : Type} (q : α → Bool) :
    ∀ (l : List α) (n : Nat),
      ((List.enumFrom n l).find? (fun p => q p.2)).map Prod.fst = l.findIdx? q n := by
  intro l
  induction l with
  | nil => intro n; rfl
  | cons a t ih =>
    intro n
    by_cases h : q a
    · simp [List.enumFrom, List.find?_cons_of_pos, h, List.findIdx?_cons]
    · simp [List.enumFrom, List.find?_cons_of_neg, h, List.findIdx?_cons, ih]

theorem findFasterOlder_eq (older : List AgeGroup) (finished : List RaceResult) (wt : ℚ) :
    findFasterOlder finished older wt
      = older.findSome? (fun og => finished.findIdx? (fasterPred og wt)) := by
  induction older with
  | nil => rfl
  | cons og rest ih =>
    have h := enumFrom_find?_fst (fasterPred og wt) finished 0
    rcases hf : List.find? (fun p => fasterPred og wt p.2) (List.enumFrom 0 finished)
      with _ | ⟨i, r⟩
    · rw [hf] at h
      have h2 : finished.findIdx? (fasterPred og wt) = none := h.symm
      simp only [findFasterOlder, List.enum, hf, List.findSome?_cons, h2]
      exact ih
    · rw [hf] at h
      have h2 : finished.findIdx? (fasterPred og wt) = some i := h.symm
      simp only [findFasterOlder, List.enum, hf, List.findSome?_cons, h2]

/-! ## Claim C3: the aging-down pass -/

/-- Modelled from the spec (with the amendment's non-zero guards): one
aging-down pass in the spec's vocabulary — take the youngest group (the
group list is youngest-first) whose fastest non-zero finishing time `wt`
exists, scan the older groups older-to-much-older for the first
participant with a truthy total time strictly below `wt`, and move that
one participant (by index) into the younger group; `none` when a full
pass over all groups finds no move. -/
def agingPassSpec (finished : List RaceResult) : List AgeGroup → Option (Nat × String)
  | [] => none
  | g :: rest =>
    match (((finished.filter (fun r => r.category = g.name)).filterMap
        (fun r => r.total_time)).filter (fun t => ¬ (t = 0))).min? with
    | none => agingPassSpec finished rest
    | some wt =>
      match rest.findSome? (fun og => finished.findIdx? (fasterPred og wt)) with
      | some i => some (i, g.name)
      | none => agingPassSpec finished rest

/-- Modelled from the spec, claim C3 exactly as written (no python
truthiness guards): the fastest time is the minimum of all present
total times — zero included — and any participant with a present,
strictly faster total time qualifies as the mover. -/
def agingPassClaim (finished : List RaceResult) : List AgeGroup → Option (Nat × String)
  | [] => none
  | g :: rest =>
    match ((finished.filter (fun r => r.category = g.name)).filterMap
        (fun r => r.total_time)).min? with
    | none => agingPassClaim finished rest
    | some wt =>
      match rest.findSome? (fun og => finished.findIdx? (fun r =>
          r.category = og.name ∧ r.total_time ≠ none ∧ r.total_time.getD 0 < wt)) with
      | some i => some (i, g.name)
      | none => agingPassClaim finished rest

/-- The C3 scenario race: age groups Junior(<20) and Senior(20+). -/
def raceC3 : Race :=
  ⟨.mass_start, none, [⟨"Junior", 0, 19⟩, ⟨"Senior", 20, 120⟩], [startTP, finishTP]⟩

/-- The same race with no age groups (no category reassignment at all). -/
def raceC3open : Race := ⟨.mass_start, none, [], [startTP, finishTP]⟩

/-- The junior winner: age 18, finished in 1100 s. -/
def jrRow : RaceResult :=
  ⟨⟨3, some 18, none⟩, "Junior", .finished, some 0, some 1100, some 1100, [], none, none, none⟩

/-- The fast senior: age 35, finished in 1000 s. -/
def srRow : RaceResult :=
  ⟨⟨2, some 35, none⟩, "Senior", .finished, some 0, some 1000, some 1000, [], none, none, none⟩

/-- A senior whose total time is exactly 0 (start and finish coincide). -/
def zeroRows : List RaceResult :=
  [⟨⟨3, some 18, none⟩, "Junior", .finished, some 0, some 1100, some 1100, [], none, none, none⟩,
   ⟨⟨2, some 35, none⟩, "Senior", .finished, some 100, some 100, some 0, [], none, none, none⟩]

/-- The C3 age groups, already sorted youngest-first. -/
def gsC3 : List AgeGroup := [⟨"Junior", 0, 19⟩, ⟨"Senior", 20, 120⟩]

/-- Counterexample to claim C3 as stated: a Senior with total time 0 —
strictly faster than the Junior winner's 1100 — is, per the claim's
wording, "a participant with a strictly faster total_time" and must be
moved into Junior (the claim-faithful pass moves index 1); but python
truthiness (`if older_result.total_time and ...`) makes the code skip
zero totals, so the code's pass finds no move and aging-down leaves the
Senior's category unchanged. -/
theorem C3_counterexample :
    agingPassClaim zeroRows gsC3 = some (1, "Junior") ∧
    agingPass zeroRows gsC3 = none ∧
    apply_aging_down gsC3 zeroRows = zeroRows ∧
    zeroRows.map (fun r => r.category) = ["Junior", "Senior"] := by
  refine ⟨?_, ?_, ?_, ?_⟩ <;> with_unfolding_all decide

/-- Claim C3, amended: each pass of the aging-down loop behaves as the
spec describes it **with python-truthiness guards added** (groups whose
fastest time is zero are skipped, and older participants with a zero
total time never qualify as movers): the code's pass coincides with the
spec-worded pass for every input; the loop stops (any remaining fuel,
bounded by 10) as soon as a pass makes no move; and on the claim's
scenario (Junior(<20)/Senior(20+), a 35-year-old finishing in 1000 s, a
junior winner finishing in 1100 s) the ranking pass makes the senior's
category "Junior", keeps the junior at category "Junior" with category
rank 2, and leaves every overall rank equal to what it is with no
category reassignment at all. -/
theorem C3_aging_down_pass :
    (∀ (finished : List RaceResult) (groups : List AgeGroup),
      agingPass finished groups = agingPassSpec finished groups) ∧
    (∀ (groups : List AgeGroup) (finished : List RaceResult) (fuel : Nat),
      agingPass finished groups = none →
      applyAgingDownLoop groups fuel finished = finished) ∧
    ((calculate_rankings raceC3 [] [jrRow, srRow]).map
        (fun r => (r.participant.id, r.category, r.overall_rank, r.category_rank))
      = [(3, "Junior", some 2, some 2), (2, "Junior", some 1, some 1)]) ∧
    ((calculate_rankings raceC3open [] [jrRow, srRow]).map (fun r => r.overall_rank)
      = (calculate_rankings raceC3 [] [jrRow, srRow]).map (fun r => r.overall_rank)) := by
  refine ⟨?_, ?_, ?_, ?_⟩
  · intro finished groups
    induction groups with
    | nil => rfl
    | cons g rest ih =>
      simp only [agingPass, agingPassSpec]
      rw [filterMap_agingSortKey_eq]
      rcases hf : finished.filter (fun r => r.category = g.name) with _ | ⟨y0, ys⟩
      · rw [hf]
        simpa using ih
      · rw [hf, min?_filterMap_key]
        rcases ht : (minByAgingKey y0 ys).total_time with _ | wt
        · simpa [agingSortKey, ht] using ih
        · by_cases hz : wt = 0
          · simpa [agingSortKey, ht, hz] using ih
          · simp only [agingSortKey, ht, if_neg hz]
            rw [findFasterOlder_eq]
            rcases hm : rest.findSome? (fun og => finished.findIdx? (fasterPred og wt))
              with _ | i
            · simpa using ih
            · simp
  · intro groups finished fuel h
    cases fuel with
    | zero => rfl
    | succ n => simp [applyAgingDownLoop, h]
  · with_unfolding_all decide
  · with_unfolding_all decide

/-- Witness for C3: the lone junior admits no move, so the bounded loop
(10 passes) returns the list unchanged. -/
theorem C3_witness : applyAgingDownLoop gsC3 10 [jrRow] = [jrRow] :=
  C3_aging_down_pass.2.1 gsC3 [jrRow] 10 (by with_unfolding_all decide)

end RaceTiming

namespace RaceTiming

/-- Equality of all RaceResult fields except `category`. -/
def eqExCat (a b : RaceResult) : Prop :=
  a.participant = b.participant ∧ a.status = b.status ∧ a.start_time = b.start_time ∧
  a.finish_time = b.finish_time ∧ a.total_time = b.total_time ∧
  a.split_times = b.split_times ∧ a.overall_rank = b.overall_rank ∧
  a.category_rank = b.category_rank ∧ a.gender_rank = b.gender_rank

/-- Positional relation left by recat/aging/splice: everything but the
category equal, and the category too on non-ranked rows. -/
def relPos (a b : RaceResult) : Prop :=
  eqExCat a b ∧ (isRanked a = false → a.category = b.category)

theorem eqExCat_refl (a : RaceResult) : eqExCat a a := by
  simp [eqExCat]

theorem relPos_refl (a : RaceResult) : relPos a a := by
  simp [relPos, eqExCat_refl]

theorem eqExCat_trans {a b c : RaceResult} (h1 : eqExCat a b) (h2 : eqExCat b c) :
    eqExCat a c := by
  obtain ⟨p1, s1, st1, f1, t1, sp1, o1, c1, g1⟩ := h1
  obtain ⟨p2, s2, st2, f2, t2, sp2, o2, c2, g2⟩ := h2
  exact ⟨p1.trans p2, s1.trans s2, st1.trans st2, f1.trans f2, t1.trans t2,
    sp1.trans sp2, o1.trans o2, c1.trans c2, g1.trans g2⟩

theorem eqExCat_isRanked {a b : RaceResult} (h : eqExCat a b) :
    isRanked a = isRanked b := by
  simp [isRanked, h.2.1]

theorem relPos_trans {a b c : RaceResult} (h1 : relPos a b) (h2 : relPos b c) :
    relPos a c := by
  refine ⟨eqExCat_trans h1.1 h2.1, ?_⟩
  intro hr
  exact (h1.2 hr).trans (h2.2 ((eqExCat_isRanked h1.1) ▸ hr))

theorem forall₂_trans_general {α : Type} {r : α → α → Prop}
    (htrans : ∀ a b c, r a b → r b c → r a c) :
    ∀ {l m n : List α}, List.Forall₂ r l m → List.Forall₂ r m n → List.Forall₂ r l n := by
  intro l m n h1 h2
  induction h1 generalizing n with
  | nil => cases h2; exact List.Forall₂.nil
  | cons hab hrest ih =>
    cases h2 with
    | cons hbc hrest2 => exact List.Forall₂.cons (htrans _ _ _ hab hbc) (ih hrest2)

theorem forall₂_relPos_trans {l m n : List RaceResult}
    (h1 : List.Forall₂ relPos l m) (h2 : List.Forall₂ relPos m n) :
    List.Forall₂ relPos l n :=
  @forall₂_trans_general RaceResult relPos
    (fun _ _ _ ha hb => relPos_trans ha hb) l m n h1 h2

theorem forall₂_refl_general {α : Type} {r : α → α → Prop} (hrefl : ∀ a, r a a) :
    ∀ (l : List α), List.Forall₂ r l l := by
  intro l
  induction l with
  | nil => exact List.Forall₂.nil
  | cons a t ih => exact List.Forall₂.cons (hrefl a) ih

theorem recatRow_eqExCat (race : Race) (r : RaceResult) :
    eqExCat (recatRow race r) r := by
  simp only [recatRow]
  split
  · simp [eqExCat]
  split
  · simp [eqExCat]
  · exact eqExCat_refl r

theorem recatPhase_relPos (race : Race) (l : List RaceResult) :
    List.Forall₂ relPos (recatPhase race l) l := by
  induction l with
  | nil => exact List.Forall₂.nil
  | cons a t ih =>
    refine List.Forall₂.cons ?_ ih
    by_cases h : isRanked a
    · refine ⟨by simpa [recatPhase, h] using recatRow_eqExCat race a, ?_⟩
      intro hr
      rw [recatPhase] at *
      simp only [List.map_cons, h, if_true] at hr ⊢
      rw [eqExCat_isRanked (recatRow_eqExCat race a)] at hr
      simp [h] at hr
    · simp only [recatPhase, List.map_cons, h, if_false]
      exact relPos_refl a

theorem setCategory_status (l : List RaceResult) (i : Nat) (c : String) :
    ∀ r ∈ setCategory l i c, ∃ x ∈ l, r.status = x.status := by
  intro r hr
  simp only [setCategory] at hr
  rcases hg : l.get? i with _ | x
  · rw [hg] at hr
    exact ⟨r, hr, rfl⟩
  · rw [hg] at hr
    rcases List.mem_or_eq_of_mem_set hr with h | h
    · exact ⟨r, h, rfl⟩
    · exact ⟨x, List.get?_mem hg, by simp [h]⟩

theorem forall₂_set {α : Type} {r : α → α → Prop} (hrefl : ∀ a, r a a) :
    ∀ (l : List α) (i : Nat) (v : α), (∀ x, l.get? i = some x → r v x) →
      List.Forall₂ r (l.set i v) l := by
  intro l
  induction l with
  | nil => intro i v _; exact List.Forall₂.nil
  | cons a t ih =>
    intro i v h
    cases i with
    | zero => exact List.Forall₂.cons (h a rfl) (forall₂_refl_general hrefl t)
    | succ n => exact List.Forall₂.cons (hrefl a) (ih n v h)

theorem setCategory_relPos (l : List RaceResult) (i : Nat) (c : String)
    (hall : ∀ r ∈ l, isRanked r = true) :
    List.Forall₂ relPos (setCategory l i c) l := by
  simp only [setCategory]
  rcases hg : l.get? i with _ | x
  · exact forall₂_refl_general relPos_refl l
  · refine forall₂_set relPos_refl l i _ ?_
    intro y hy
    rw [hg] at hy
    obtain rfl : x = y := Option.some.inj hy
    refine ⟨by simp [eqExCat], ?_⟩
    intro hf
    have := hall x (List.get?_mem hg)
    simp only [isRanked] at this hf ⊢
    rw [show ({ x with category := c } : RaceResult).status = x.status from rfl] at hf
    rw [this] at hf
    cases hf

theorem applyAgingDownLoop_relPos (gs : List AgeGroup) :
    ∀ (fuel : Nat) (l : List RaceResult), (∀ r ∈ l, r.status = .finished) →
      List.Forall₂ relPos (applyAgingDownLoop gs fuel l) l := by
  intro fuel
  induction fuel with
  | zero => intro l _; exact forall₂_refl_general relPos_refl l
  | succ n ih =>
    intro l hall
    simp only [applyAgingDownLoop]
    rcases hp : agingPass l gs with _ | ⟨i, cat⟩
    · exact forall₂_refl_general relPos_refl l
    · have hall2 : ∀ r ∈ setCategory l i cat, r.status = .finished := by
        intro r hr
        obtain ⟨x, hx, he⟩ := setCategory_status l i cat r hr
        rw [he]
        exact hall x hx
      have h1 := ih (setCategory l i cat) hall2
      have h2 := setCategory_relPos l i cat (fun r hr => by simp [isRanked, hall r hr])
      exact forall₂_relPos_trans h1 h2

theorem apply_aging_down_relPos (gs : List AgeGroup) (l : List RaceResult)
    (hall : ∀ r ∈ l, r.status = .finished) :
    List.Forall₂ relPos (apply_aging_down gs l) l :=
  applyAgingDownLoop_relPos _ 10 l hall

theorem spliceByPred_relPos :
    ∀ (l repl : List RaceResult),
      List.Forall₂ relPos repl (l.filter (fun r => r.status = .finished)) →
      List.Forall₂ relPos (spliceByPred (fun r => r.status = .finished) l repl) l := by
  intro l
  induction l with
  | nil => intro repl _; exact List.Forall₂.nil
  | cons x xs ih =>
    intro repl h
    by_cases hpx : x.status = .finished
    · rw [List.filter_cons_of_pos (by simp [hpx])] at h
      cases h with
      | cons hr hrest =>
        simp only [spliceByPred, if_pos (by simp [hpx] : (decide (x.status = .finished)) = true)]
        exact List.Forall₂.cons hr (ih _ hrest)
    · rw [List.filter_cons_of_neg (by simp [hpx])] at h
      simp only [spliceByPred, if_neg (by simp [hpx] : ¬ (decide (x.status = .finished)) = true)]
      exact List.Forall₂.cons (relPos_refl x) (ih _ h)

theorem agingPhase_relPos (race : Race) (l : List RaceResult) :
    List.Forall₂ relPos (agingPhase race l) l := by
  have hall : ∀ r ∈ l.filter (fun r => r.status = .finished), r.status = .finished := by
    intro r hr
    simpa using (List.mem_filter.mp hr).2
  simp only [agingPhase]
  split
  · exact spliceByPred_relPos l _ (apply_aging_down_relPos race.age_groups _ hall)
  · exact spliceByPred_relPos l _ (forall₂_refl_general relPos_refl _)

theorem rows2_relPos (race : Race) (l : List RaceResult) :
    List.Forall₂ relPos (agingPhase race (recatPhase race l)) l :=
  forall₂_relPos_trans (agingPhase_relPos race (recatPhase race l))
    (recatPhase_relPos race l)

theorem insertByLt_perm {α : Type} (lt : α → α → Bool) (x : α) :
    ∀ l : List α, (insertByLt lt x l).Perm (x :: l) := by
  intro l
  induction l with
  | nil => exact List.Perm.refl _
  | cons y ys ih =>
    simp only [insertByLt]
    split
    · exact ((ih.cons y).trans (List.Perm.swap x y ys))
    · exact List.Perm.refl _

theorem sortByLt_perm {α : Type} (lt : α → α → Bool) :
    ∀ l : List α, (sortByLt lt l).Perm l := by
  intro l
  induction l with
  | nil => exact List.Perm.refl _
  | cons x xs ih =>
    exact (insertByLt_perm lt x (sortByLt lt xs)).trans (ih.cons x)

theorem mem_enumFrom_get? {α : Type} :
    ∀ (l : List α) (n : Nat) (p : Nat × α), p ∈ List.enumFrom n l →
      n ≤ p.1 ∧ l.get? (p.1 - n) = some p.2 := by
  intro l
  induction l with
  | nil => intro n p h; cases h
  | cons a t ih =>
    intro n p h
    rcases List.mem_cons.mp h with h1 | h1
    · subst h1
      simp
    · obtain ⟨hle, hget⟩ := ih (n + 1) p h1
      refine ⟨le_trans (Nat.le_succ n) hle, ?_⟩
      have : p.1 - n = (p.1 - (n + 1)) + 1 := by omega
      rw [this]
      simpa using hget

theorem mem_enum_get? {α : Type} {l : List α} {i : Nat} {r : α}
    (h : (i, r) ∈ l.enum) : l.get? i = some r := by
  have := mem_enumFrom_get? l 0 (i, r) h
  simpa using this.2

theorem get?_mem_enum {α : Type} {l : List α} {i : Nat} {r : α}
    (h : l.get? i = some r) : (i, r) ∈ l.enum := by
  apply List.get?_mem
  rw [List.enum_get?, h]
  rfl

theorem dlookup_eq_none_iff {α β : Type} [DecidableEq α] (k : α) :
    ∀ (l : List (α × β)), dlookup k l = none ↔ k ∉ l.map Prod.fst := by
  intro l
  induction l with
  | nil => simp [dlookup]
  | cons p t ih =>
    cases p with
    | mk a b =>
      by_cases h : a = k
      · simp [dlookup, h]
      · simp only [dlookup, if_neg h, List.map_cons, List.mem_cons]
        rw [ih]
        constructor
        · intro h1 h2
          rcases h2 with h2 | h2
          · exact h h2.symm
          · exact h1 h2
        · intro h1 h2
          exact h1 (Or.inr h2)

theorem dlookup_mem {α β : Type} [DecidableEq α] {k : α} {v : β} :
    ∀ {l : List (α × β)}, dlookup k l = some v → (k, v) ∈ l := by
  intro l
  induction l with
  | nil => intro h; cases h
  | cons p t ih =>
    intro h
    cases p with
    | mk a b =>
      by_cases ha : a = k
      · subst ha
        simp only [dlookup, if_pos rfl] at h
        obtain rfl : b = v := Option.some.inj h
        exact List.mem_cons_self _ _
      · simp only [dlookup, if_neg ha] at h
        exact List.mem_cons_of_mem _ (ih h)

theorem enumFrom_map_snd_fst {α : Type} :
    ∀ (l : List (Nat × α)) (n : Nat),
      (List.enumFrom n l).map (fun q => q.2.1) = l.map Prod.fst := by
  intro l
  induction l with
  | nil => intro n; rfl
  | cons a t ih =>
    intro n
    simp only [List.enumFrom, List.map_cons]
    rw [ih]

theorem rankedAssign_keys (l : List (Nat × RaceResult)) :
    (rankedAssign l).map Prod.fst = l.map Prod.fst := by
  rw [rankedAssign, List.map_map]
  exact enumFrom_map_snd_fst l 0

theorem rankedAssign_mem {l : List (Nat × RaceResult)} {e : Nat × RaceResult}
    (h : e ∈ rankedAssign l) :
    ∃ q ∈ l, e.1 = q.1 ∧ ∃ o c g, e.2 =
      { q.2 with overall_rank := o, category_rank := c, gender_rank := g } ∧
      (truthyGender q.2 = false → g = q.2.gender_rank) := by
  simp only [rankedAssign, List.mem_map] at h
  obtain ⟨q, hq, he⟩ := h
  subst he
  have hmem : q.2 ∈ l := by
    have := mem_enumFrom_get? l 0 q (by simpa [List.enum] using hq)
    exact List.get?_mem (by simpa using this.2)
  exact ⟨q.2, hmem, rfl, _, _, _, rfl, fun hg => by simp [hg]⟩

theorem sortedFin_mem {rows2 : List RaceResult} {i : Nat} {r : RaceResult}
    (h : (i, r) ∈ sortedFin rows2) :
    rows2.get? i = some r ∧ r.status = .finished := by
  have h2 := (sortByLt_perm _ _).mem_iff.mp h
  have h3 := List.mem_filter.mp h2
  exact ⟨mem_enum_get? h3.1, by simpa using h3.2⟩

theorem sortedStarted_mem {records : List (Nat × TimeRecord)}
    {rows2 : List RaceResult} {i : Nat} {r : RaceResult}
    (h : (i, r) ∈ sortedStarted records rows2) :
    rows2.get? i = some r ∧ r.status = .started := by
  have h2 := (sortByLt_perm _ _).mem_iff.mp h
  have h3 := List.mem_filter.mp h2
  exact ⟨mem_enum_get? h3.1, by simpa using h3.2⟩

theorem mem_sortedFin {rows2 : List RaceResult} {i : Nat} {r : RaceResult}
    (hg : rows2.get? i = some r) (hs : r.status = .finished) :
    (i, r) ∈ sortedFin rows2 := by
  apply (sortByLt_perm _ _).mem_iff.mpr
  exact List.mem_filter.mpr ⟨get?_mem_enum hg, by simpa using hs⟩

theorem mem_sortedStarted {records : List (Nat × TimeRecord)}
    {rows2 : List RaceResult} {i : Nat} {r : RaceResult}
    (hg : rows2.get? i = some r) (hs : r.status = .started) :
    (i, r) ∈ sortedStarted records rows2 := by
  apply (sortByLt_perm _ _).mem_iff.mpr
  exact List.mem_filter.mpr ⟨get?_mem_enum hg, by simpa using hs⟩

theorem rankPhase_coverage {records : List (Nat × TimeRecord)}
    {rows2 : List RaceResult} {i : Nat} {r : RaceResult}
    (hg : rows2.get? i = some r) (hr : isRanked r = true) :
    dlookup i (rankedAssign (sortedFin rows2 ++ sortedStarted records rows2)) ≠ none := by
  intro hnone
  rw [dlookup_eq_none_iff, rankedAssign_keys] at hnone
  apply hnone
  rw [List.map_append, List.mem_append]
  simp only [isRanked, Bool.or_eq_true, decide_eq_true_eq] at hr
  rcases hr with hs | hs
  · exact Or.inl (List.mem_map.mpr ⟨(i, r), mem_sortedFin hg hs, rfl⟩)
  · exact Or.inr (List.mem_map.mpr ⟨(i, r), mem_sortedStarted hg hs, rfl⟩)

/-- What one pass of `rankPhase` guarantees for an output row relative to its
input row: all non-rank fields are preserved, a ranked gender-less row keeps
its `gender_rank`, and a non-ranked row gets all three ranks cleared. -/
def relOut (a b : RaceResult) : Prop :=
  a.participant = b.participant ∧ a.category = b.category ∧ a.status = b.status ∧
  a.start_time = b.start_time ∧ a.finish_time = b.finish_time ∧
  a.total_time = b.total_time ∧ a.split_times = b.split_times ∧
  (isRanked b = true → truthyGender b = false → a.gender_rank = b.gender_rank) ∧
  (isRanked b = false → a.overall_rank = none ∧ a.category_rank = none ∧ a.gender_rank = none)

theorem rankPhase_def (records : List (Nat × TimeRecord)) (rows2 : List RaceResult) :
    rankPhase records rows2 = rows2.enum.map (fun p =>
      match dlookup p.1 (rankedAssign (sortedFin rows2 ++ sortedStarted records rows2)) with
      | some r2 => r2
      | none =>
        if isRanked p.2 then p.2
        else { p.2 with overall_rank := none, category_rank := none, gender_rank := none }) :=
  rfl

theorem rankPhase_get? (records : List (Nat × TimeRecord)) (rows2 : List RaceResult)
    (j : Nat) (r : RaceResult) (hgr : rows2.get? j = some r) :
    (rankPhase records rows2).get? j = some (
      match dlookup j (rankedAssign (sortedFin rows2 ++ sortedStarted records rows2)) with
      | some r2 => r2
      | none =>
        if isRanked r then r
        else { r with overall_rank := none, category_rank := none, gender_rank := none }) := by
  rw [rankPhase_def, List.get?_map, List.enum_get?, hgr]
  rfl

theorem rankPhase_relOut (records : List (Nat × TimeRecord)) (rows2 : List RaceResult) :
    List.Forall₂ relOut (rankPhase records rows2) rows2 := by
  rw [List.forall₂_iff_get]
  refine ⟨by simp [rankPhase_def], ?_⟩
  intro j h1 h2
  have hgr : rows2.get? j = some (rows2.get ⟨j, h2⟩) := List.get?_eq_get h2
  set r := rows2.get ⟨j, h2⟩ with hr
  have hv := rankPhase_get? records rows2 j r hgr
  have hval := Option.some.inj ((List.get?_eq_get h1).symm.trans hv)
  rw [hval]
  set asg := rankedAssign (sortedFin rows2 ++ sortedStarted records rows2) with hasg
  rcases hdl : dlookup j asg with _ | r2
  · simp only [hdl]
    by_cases hrank : isRanked r
    · exact absurd hdl (by simpa using rankPhase_coverage hgr hrank)
    · rw [Bool.not_eq_true] at hrank
      simp only [hrank, Bool.false_eq_true, if_false]
      refine ⟨rfl, rfl, rfl, rfl, rfl, rfl, rfl, ?_, ?_⟩
      · intro hc
        rw [hrank] at hc
        cases hc
      · intro _
        exact ⟨rfl, rfl, rfl⟩
  · simp only [hdl]
    have hmem := dlookup_mem hdl
    rw [hasg] at hmem
    obtain ⟨q, hq, hkey, o, c, g, hpay, hkept⟩ := rankedAssign_mem hmem
    obtain ⟨qi, qr⟩ := q
    simp only at hkey hpay hkept
    subst hkey
    have hrank : rows2.get? j = some qr ∧ isRanked qr = true := by
      rcases List.mem_append.mp hq with hqf | hqs
      · obtain ⟨hg1, hg2⟩ := sortedFin_mem hqf
        exact ⟨hg1, by simp [isRanked, hg2]⟩
      · obtain ⟨hg1, hg2⟩ := sortedStarted_mem hqs
        exact ⟨hg1, by simp [isRanked, hg2]⟩
    have hqr : qr = r := Option.some.inj (hrank.1.symm.trans hgr)
    subst hqr
    rw [hpay]
    refine ⟨rfl, rfl, rfl, rfl, rfl, rfl, rfl, ?_, ?_⟩
    · intro _ htg
      simpa using hkept htg
    · intro hc
      rw [hrank.2] at hc
      cases hc

/-- Relation between an output row of `calculate_rankings` and the
corresponding input row: participant, status, times and splits are preserved;
the category is preserved on non-ranked rows; and a ranked row without a
truthy gender keeps its `gender_rank`. -/
def rel2 (a b : RaceResult) : Prop :=
  a.participant = b.participant ∧ a.status = b.status ∧ a.start_time = b.start_time ∧
  a.finish_time = b.finish_time ∧ a.total_time = b.total_time ∧
  a.split_times = b.split_times ∧
  (isRanked a = false → a.category = b.category) ∧
  (isRanked a = true → truthyGender a = false → a.gender_rank = b.gender_rank)

theorem relOut_relPos_rel2 {a b c : RaceResult} (h1 : relOut a b) (h2 : relPos b c) :
    rel2 a c := by
  obtain ⟨p1, c1, s1, st1, f1, t1, sp1, g1, n1⟩ := h1
  obtain ⟨⟨p2, s2, st2, f2, t2, sp2, o2, cr2, g2⟩, hc2⟩ := h2
  have hrank : isRanked a = isRanked b := by simp [isRanked, s1]
  have hrank2 : isRanked b = isRanked c := by simp [isRanked, s2]
  have htg : truthyGender a = truthyGender b := by simp [truthyGender, p1]
  refine ⟨p1.trans p2, s1.trans s2, st1.trans st2, f1.trans f2, t1.trans t2,
    sp1.trans sp2, ?_, ?_⟩
  · intro hnr
    exact (c1.trans (hc2 (by rw [← hrank, hnr])))
  · intro hr htga
    refine ((g1 (by rw [← hrank, hr]) (by rw [← htg, htga])).trans g2)

theorem forall₂_compose {α : Type} {r1 r2 r3 : α → α → Prop}
    (h : ∀ a b c, r1 a b → r2 b c → r3 a c) :
    ∀ {l m n : List α}, List.Forall₂ r1 l m → List.Forall₂ r2 m n →
      List.Forall₂ r3 l n := by
  intro l m n h1 h2
  induction h1 generalizing n with
  | nil => cases h2; exact List.Forall₂.nil
  | cons hab hrest ih =>
    cases h2 with
    | cons hbc hrest2 => exact List.Forall₂.cons (h _ _ _ hab hbc) (ih hrest2)

theorem calculate_rankings_rel2 (race : Race) (records : List (Nat × TimeRecord))
    (l : List RaceResult) :
    List.Forall₂ rel2 (calculate_rankings race records l) l :=
  @forall₂_compose RaceResult relOut relPos rel2
    (fun _ _ _ h1 h2 => relOut_relPos_rel2 h1 h2) _ _ _
    (rankPhase_relOut records (agingPhase race (recatPhase race l)))
    (rows2_relPos race l)

/-- Invariant between the two runs after the recat phase: every field but the
ranks agrees, and the `gender_rank` of a ranked gender-less row agrees (it is
the only rank `rankPhase` reads). -/
def relMid (a b : RaceResult) : Prop :=
  a.participant = b.participant ∧ a.category = b.category ∧ a.status = b.status ∧
  a.start_time = b.start_time ∧ a.finish_time = b.finish_time ∧
  a.total_time = b.total_time ∧ a.split_times = b.split_times ∧
  (isRanked a = true → truthyGender a = false → a.gender_rank = b.gender_rank)

theorem relMid_refl (a : RaceResult) : relMid a a := by
  simp [relMid]

theorem relMid_isRanked {a b : RaceResult} (h : relMid a b) : isRanked a = isRanked b := by
  simp [isRanked, h.2.2.1]

theorem relMid_truthyGender {a b : RaceResult} (h : relMid a b) :
    truthyGender a = truthyGender b := by
  simp [truthyGender, h.1]

theorem relMid_agingSortKey {a b : RaceResult} (h : relMid a b) :
    agingSortKey a = agingSortKey b := by
  simp [agingSortKey, h.2.2.2.2.2.1]

theorem relMid_fasterPred (og : AgeGroup) (wt : ℚ) {a b : RaceResult} (h : relMid a b) :
    fasterPred og wt a = fasterPred og wt b := by
  simp [fasterPred, h.2.1, h.2.2.2.2.2.1]

theorem relMid_finLt {a b a2 b2 : RaceResult} (h1 : relMid a a2) (h2 : relMid b b2) :
    finLt a b = finLt a2 b2 := by
  simp [finLt, h1.2.2.2.2.2.1, h2.2.2.2.2.2.1]

theorem forall₂_filter_cong {α : Type} {r : α → α → Prop} (p : α → Bool)
    (hp : ∀ a b, r a b → p a = p b) :
    ∀ {l l' : List α}, List.Forall₂ r l l' →
      List.Forall₂ r (l.filter p) (l'.filter p) := by
  intro l l' h
  induction h with
  | nil => exact List.Forall₂.nil
  | cons hab hrest ih =>
    rename_i a b t t'
    by_cases hpa : p a
    · rw [List.filter_cons_of_pos hpa, List.filter_cons_of_pos ((hp a b hab) ▸ hpa)]
      exact List.Forall₂.cons hab ih
    · rw [List.filter_cons_of_neg hpa,
        List.filter_cons_of_neg (fun hc => hpa ((hp a b hab) ▸ hc))]
      exact ih

theorem forall₂_findIdx?_cong {α : Type} {r : α → α → Prop} (q : α → Bool)
    (hq : ∀ a b, r a b → q a = q b) :
    ∀ {l l' : List α}, List.Forall₂ r l l' → ∀ n, l.findIdx? q n = l'.findIdx? q n := by
  intro l l' h
  induction h with
  | nil => intro n; rfl
  | cons hab hrest ih =>
    intro n
    rw [List.findIdx?_cons, List.findIdx?_cons, hq _ _ hab]
    split
    · rfl
    · exact ih (n + 1)

theorem findSome?_congr {α β : Type} {f g : α → Option β} :
    ∀ {l : List α}, (∀ a ∈ l, f a = g a) → l.findSome? f = l.findSome? g := by
  intro l
  induction l with
  | nil => intro _; rfl
  | cons a t ih =>
    intro h
    rw [List.findSome?_cons, List.findSome?_cons, h a (List.mem_cons_self a t)]
    split
    · rfl
    · exact ih (fun x hx => h x (List.mem_cons_of_mem a hx))

theorem forall₂_take {α : Type} {r : α → α → Prop} :
    ∀ (n : Nat) {l l' : List α}, List.Forall₂ r l l' →
      List.Forall₂ r (l.take n) (l'.take n) := by
  intro n
  induction n with
  | zero => intro l l' _; exact List.Forall₂.nil
  | succ m ih =>
    intro l l' h
    cases h with
    | nil => exact List.Forall₂.nil
    | cons hab hrest => exact List.Forall₂.cons hab (ih hrest)

theorem forall₂_append_general {α : Type} {r : α → α → Prop} {l1 l2 m1 m2 : List α}
    (h1 : List.Forall₂ r l1 m1) (h2 : List.Forall₂ r l2 m2) :
    List.Forall₂ r (l1 ++ l2) (m1 ++ m2) := by
  induction h1 with
  | nil => exact h2
  | cons hab hrest ih => exact List.Forall₂.cons hab ih

theorem forall₂_set₂ {α : Type} {r : α → α → Prop} {v v' : α} (hv : r v v') :
    ∀ {l l' : List α} (i : Nat), List.Forall₂ r l l' →
      List.Forall₂ r (l.set i v) (l'.set i v') := by
  intro l l' i h
  induction h generalizing i with
  | nil => exact List.Forall₂.nil
  | cons hab hrest ih =>
    cases i with
    | zero => exact List.Forall₂.cons hv hrest
    | succ n => exact List.Forall₂.cons hab (ih n)

theorem forall₂_map_snd {α β : Type} {r : β → β → Prop}
    {rp : α × β → α × β → Prop} (hr : ∀ p q, rp p q → r p.2 q.2) :
    ∀ {l l' : List (α × β)}, List.Forall₂ rp l l' →
      List.Forall₂ r (l.map Prod.snd) (l'.map Prod.snd) := by
  intro l l' h
  induction h with
  | nil => exact List.Forall₂.nil
  | cons hab hrest ih => exact List.Forall₂.cons (hr _ _ hab) ih

theorem minByAgingKey_cong {x x' : RaceResult} {ys ys' : List RaceResult}
    (h0 : relMid x x') (h : List.Forall₂ relMid ys ys') :
    relMid (minByAgingKey x ys) (minByAgingKey x' ys') := by
  induction h generalizing x x' with
  | nil => exact h0
  | cons hab hrest ih =>
    rw [minByAgingKey_cons, minByAgingKey_cons]
    rw [relMid_agingSortKey hab, relMid_agingSortKey h0]
    split
    · exact ih hab
    · exact ih h0

theorem relMid_setcat {x x' : RaceResult} (h : relMid x x') (c : String) :
    relMid { x with category := c } { x' with category := c } := by
  obtain ⟨p, cc, s, st, f, t, sp, g⟩ := h
  exact ⟨p, rfl, s, st, f, t, sp, g⟩

theorem agingPass_cong {fin fin' : List RaceResult} (h : List.Forall₂ relMid fin fin') :
    ∀ gs, agingPass fin gs = agingPass fin' gs := by
  intro gs
  induction gs with
  | nil => rfl
  | cons g rest ih =>
    simp only [agingPass]
    have hf := forall₂_filter_cong (fun r => decide (r.category = g.name))
      (fun a b hab => by simp [hab.2.1]) h
    rcases hshape : fin.filter (fun r => r.category = g.name) with _ | ⟨y0, ys⟩ <;>
      rcases hshape2 : fin'.filter (fun r => r.category = g.name) with _ | ⟨z0, zs⟩ <;>
      rw [hshape, hshape2] at hf
    · simp only [hshape, hshape2]
      exact ih
    · cases hf
    · cases hf
    · simp only [hshape, hshape2]
      cases hf with
      | cons h0 hrest =>
        have hw := minByAgingKey_cong h0 hrest
        rw [hw.2.2.2.2.2.1]
        rcases ht : (minByAgingKey z0 zs).total_time with _ | wt
        · exact ih
        · by_cases hz : wt = 0
          · simp only [if_pos hz]
            exact ih
          · simp only [if_neg hz]
            rw [findFasterOlder_eq, findFasterOlder_eq]
            have heq : rest.findSome? (fun og => fin.findIdx? (fasterPred og wt))
                = rest.findSome? (fun og => fin'.findIdx? (fasterPred og wt)) :=
              findSome?_congr (fun og _ =>
                forall₂_findIdx?_cong (fasterPred og wt)
                  (fun a b hab => relMid_fasterPred og wt hab) h 0)
            rw [heq]
            rcases hm : rest.findSome? (fun og => fin'.findIdx? (fasterPred og wt))
              with _ | i
            · exact ih
            · rfl

theorem setCategory_cong {l l' : List RaceResult} (h : List.Forall₂ relMid l l')
    (i : Nat) (c : String) :
    List.Forall₂ relMid (setCategory l i c) (setCategory l' i c) := by
  simp only [setCategory]
  rcases hg : l.get? i with _ | x
  · have hg2 : l'.get? i = none := by
      rw [List.get?_eq_none] at hg ⊢
      rw [← h.length_eq]
      exact hg
    rw [hg2]
    exact h
  · obtain ⟨hi, hx⟩ := List.get?_eq_some.mp hg
    have hi2 : i < l'.length := by
      rw [← h.length_eq]
      exact hi
    have hrel := (List.forall₂_iff_get.mp h).2 i hi hi2
    rw [hx] at hrel
    have hg2 : l'.get? i = some (l'.get ⟨i, hi2⟩) := List.get?_eq_get hi2
    rw [hg2]
    exact forall₂_set₂ (relMid_setcat hrel c) i h

theorem applyAgingDownLoop_cong (gs : List AgeGroup) :
    ∀ (fuel : Nat) {l l' : List RaceResult}, List.Forall₂ relMid l l' →
      List.Forall₂ relMid (applyAgingDownLoop gs fuel l) (applyAgingDownLoop gs fuel l') := by
  intro fuel
  induction fuel with
  | zero => intro l l' h; exact h
  | succ n ih =>
    intro l l' h
    simp only [applyAgingDownLoop]
    rcases hp : agingPass l' gs with _ | ⟨i, cat⟩ <;>
      rw [(agingPass_cong h gs).trans hp]
    · exact h
    · exact ih (setCategory_cong h i cat)

theorem spliceByPred_cong :
    ∀ {l l' repl repl' : List RaceResult}, List.Forall₂ relMid l l' →
      List.Forall₂ relMid repl repl' →
      List.Forall₂ relMid (spliceByPred (fun r => r.status = .finished) l repl)
        (spliceByPred (fun r => r.status = .finished) l' repl') := by
  intro l l' repl repl' h
  induction h generalizing repl repl' with
  | nil => intro _; exact List.Forall₂.nil
  | cons hab hrest ih =>
    intro hr
    rename_i a b t t'
    by_cases hpa : a.status = .finished
    · have hpb : b.status = .finished := hab.2.2.1 ▸ hpa
      have hd1 : (decide (a.status = ParticipantStatus.finished)) = true := by simpa using hpa
      have hd2 : (decide (b.status = ParticipantStatus.finished)) = true := by simpa using hpb
      simp only [spliceByPred, hd1, hd2, if_true]
      cases hr with
      | nil => exact List.Forall₂.cons hab (ih List.Forall₂.nil)
      | cons hv hvr => exact List.Forall₂.cons hv (ih hvr)
    · have hpb : ¬ b.status = .finished := fun hc => hpa (hab.2.2.1 ▸ hc)
      have hd1 : (decide (a.status = ParticipantStatus.finished)) = false := by simpa using hpa
      have hd2 : (decide (b.status = ParticipantStatus.finished)) = false := by simpa using hpb
      simp only [spliceByPred, hd1, hd2, Bool.false_eq_true, if_false]
      exact List.Forall₂.cons hab (ih hr)

theorem agingPhase_cong (race : Race) {l l' : List RaceResult}
    (h : List.Forall₂ relMid l l') :
    List.Forall₂ relMid (agingPhase race l) (agingPhase race l') := by
  have hfil := forall₂_filter_cong (fun r => decide (r.status = ParticipantStatus.finished))
    (fun a b hab => by simp [hab.2.2.1]) h
  simp only [agingPhase]
  have hlen : ∀ (m m' : List RaceResult), m.length = m'.length → m.isEmpty = m'.isEmpty := by
    intro m m' hm
    cases m <;> cases m' <;> simp_all
  have hempty : (l.filter (fun r => r.status = ParticipantStatus.finished)).isEmpty
      = (l'.filter (fun r => r.status = ParticipantStatus.finished)).isEmpty :=
    hlen _ _ hfil.length_eq
  rw [hempty]
  split
  · exact spliceByPred_cong h (applyAgingDownLoop_cong _ 10 hfil)
  · exact spliceByPred_cong h hfil

attribute [ext] RaceResult

theorem recatRow_cong (race : Race) {a b : RaceResult} (hab : rel2 a b)
    (H : calculate_category a.participant.age race.age_groups ≠ "Open")
    (hr : isRanked a = true) :
    relMid (recatRow race a) (recatRow race b) := by
  obtain ⟨p, s, st, f, t, sp, hcat, hg⟩ := hab
  have hpb : calculate_category b.participant.age race.age_groups
      = calculate_category a.participant.age race.age_groups := by rw [p]
  simp only [recatRow]
  rw [hpb, if_pos H, if_pos H]
  exact ⟨p, rfl, s, st, f, t, sp, hg⟩

theorem recatPhase_cong (race : Race) :
    ∀ {l l' : List RaceResult}, List.Forall₂ rel2 l l' →
      (∀ r ∈ l, calculate_category r.participant.age race.age_groups ≠ "Open") →
      List.Forall₂ relMid (recatPhase race l) (recatPhase race l') := by
  intro l l' h
  induction h with
  | nil => intro _; exact List.Forall₂.nil
  | cons hab hrest ih =>
    intro H
    rename_i a b t t'
    simp only [recatPhase, List.map_cons]
    refine List.Forall₂.cons ?_ (ih (fun r hr => H r (List.mem_cons_of_mem _ hr)))
    have hH := H _ (List.mem_cons_self _ _)
    have hrank : isRanked a = isRanked b := by simp [isRanked, hab.2.1]
    by_cases hr : isRanked a
    · rw [if_pos hr, if_pos (hrank ▸ hr)]
      exact recatRow_cong race hab hH hr
    · rw [if_neg hr, if_neg (fun hc => hr (hrank ▸ hc))]
      obtain ⟨p, s, st, f, t2, sp, hcat, hg⟩ := hab
      exact ⟨p, hcat (by simpa using hr), s, st, f, t2, sp,
        fun h1 _ => absurd h1 hr⟩

end RaceTiming

namespace RaceTiming

/-- `relMid` on position-tagged rows with equal positions. -/
def relP (p q : Nat × RaceResult) : Prop := p.1 = q.1 ∧ relMid p.2 q.2

theorem forall₂_enumFrom_relP :
    ∀ {l l' : List RaceResult}, List.Forall₂ relMid l l' → ∀ n,
      List.Forall₂ relP (List.enumFrom n l) (List.enumFrom n l') := by
  intro l l' h
  induction h with
  | nil => intro _; exact List.Forall₂.nil
  | cons hab hrest ih =>
    intro n
    exact List.Forall₂.cons ⟨rfl, hab⟩ (ih (n + 1))

theorem insertByLt_cong {α : Type} {r : α → α → Prop} (lt : α → α → Bool)
    (hlt : ∀ a a2 b b2, r a a2 → r b b2 → lt a b = lt a2 b2)
    {x x2 : α} (hx : r x x2) :
    ∀ {m m2 : List α}, List.Forall₂ r m m2 →
      List.Forall₂ r (insertByLt lt x m) (insertByLt lt x2 m2) := by
  intro m m2 h
  induction h with
  | nil => exact List.Forall₂.cons hx List.Forall₂.nil
  | cons hab hrest ih =>
    rename_i y y2 t t2
    simp only [insertByLt]
    rw [hlt y y2 x x2 hab hx]
    split
    · exact List.Forall₂.cons hab ih
    · exact List.Forall₂.cons hx (List.Forall₂.cons hab hrest)

theorem sortByLt_cong {α : Type} {r : α → α → Prop} (lt : α → α → Bool)
    (hlt : ∀ a a2 b b2, r a a2 → r b b2 → lt a b = lt a2 b2) :
    ∀ {l l2 : List α}, List.Forall₂ r l l2 →
      List.Forall₂ r (sortByLt lt l) (sortByLt lt l2) := by
  intro l l2 h
  induction h with
  | nil => exact List.Forall₂.nil
  | cons hab hrest ih => exact insertByLt_cong lt hlt hab ih

theorem sortedFin_cong {rows2 rows2' : List RaceResult}
    (h : List.Forall₂ relMid rows2 rows2') :
    List.Forall₂ relP (sortedFin rows2) (sortedFin rows2') := by
  apply sortByLt_cong _ (fun a a2 b b2 ha hb => relMid_finLt ha.2 hb.2)
  exact forall₂_filter_cong _ (fun a b hab => by simp [hab.2.2.2.1]) (forall₂_enumFrom_relP h 0)

theorem sortedStarted_cong (records : List (Nat × TimeRecord))
    {rows2 rows2' : List RaceResult} (h : List.Forall₂ relMid rows2 rows2') :
    List.Forall₂ relP (sortedStarted records rows2) (sortedStarted records rows2') := by
  apply sortByLt_cong _ (fun a a2 b b2 ha hb => by
    rw [show a.2.participant = a2.2.participant from ha.2.1,
      show b.2.participant = b2.2.participant from hb.2.1])
  exact forall₂_filter_cong _ (fun a b hab => by simp [hab.2.2.2.1]) (forall₂_enumFrom_relP h 0)

theorem ranked_all_ranked (records : List (Nat × TimeRecord)) (rows2 : List RaceResult) :
    ∀ p ∈ sortedFin rows2 ++ sortedStarted records rows2, isRanked p.2 = true := by
  intro p hp
  obtain ⟨qi, qr⟩ := p
  rcases List.mem_append.mp hp with hm | hm
  · simp [isRanked, (sortedFin_mem hm).2]
  · simp [isRanked, (sortedStarted_mem hm).2]

theorem rankedAssign_get? (L : List (Nat × RaceResult)) (n : Nat) (p : Nat × RaceResult)
    (h : L.get? n = some p) :
    (rankedAssign L).get? n = some (p.1, { p.2 with
      overall_rank := some (n + 1)
      category_rank := some ((((L.take n).map (fun p => p.2)).filter
        (fun s => s.category = p.2.category)).length + 1)
      gender_rank := if truthyGender p.2 then
          some ((((L.take n).map (fun p => p.2)).filter
            (fun s => truthyGender s ∧ s.participant.gender = p.2.participant.gender)).length + 1)
        else p.2.gender_rank }) := by
  rw [rankedAssign, List.get?_map, List.enum_get?, h]
  rfl

theorem rankedAssign_eq {L L' : List (Nat × RaceResult)}
    (h : List.Forall₂ relP L L') (hrk : ∀ p ∈ L, isRanked p.2 = true) :
    rankedAssign L = rankedAssign L' := by
  apply List.ext_get?
  intro n
  rcases hLn : L.get? n with _ | p
  · have hLn2 : L'.get? n = none := by
      rw [List.get?_eq_none] at hLn ⊢
      rw [← h.length_eq]
      exact hLn
    have e1 : (rankedAssign L).get? n = none := by
      rw [List.get?_eq_none] at hLn ⊢
      simpa [rankedAssign] using hLn
    have e2 : (rankedAssign L').get? n = none := by
      rw [List.get?_eq_none] at hLn2 ⊢
      simpa [rankedAssign] using hLn2
    rw [e1, e2]
  · obtain ⟨hi, hx⟩ := List.get?_eq_some.mp hLn
    have hi2 : n < L'.length := by rw [← h.length_eq]; exact hi
    have hq : L'.get? n = some (L'.get ⟨n, hi2⟩) := List.get?_eq_get hi2
    have hrel : relP p (L'.get ⟨n, hi2⟩) := by
      rw [← hx]
      exact (List.forall₂_iff_get.mp h).2 n hi hi2
    set q := L'.get ⟨n, hi2⟩ with hqd
    obtain ⟨hfst, hmid⟩ := hrel
    have hpre : List.Forall₂ relMid ((L.take n).map (fun p => p.2))
        ((L'.take n).map (fun p => p.2)) :=
      forall₂_map_snd (fun _ _ hr => hr.2) (forall₂_take n h)
    have hcnt : ((((L.take n).map (fun p => p.2)).filter
        (fun s => s.category = p.2.category)).length)
        = ((((L'.take n).map (fun p => p.2)).filter
        (fun s => s.category = q.2.category)).length) := by
      rw [hmid.2.1]
      exact (forall₂_filter_cong _ (fun a b hab => by simp [hab.2.1]) hpre).length_eq
    have htg : truthyGender p.2 = truthyGender q.2 := relMid_truthyGender hmid
    have hrec : ({ p.2 with
        overall_rank := some (n + 1)
        category_rank := some ((((L.take n).map (fun p => p.2)).filter
          (fun s => s.category = p.2.category)).length + 1)
        gender_rank := if truthyGender p.2 then
            some ((((L.take n).map (fun p => p.2)).filter
              (fun s => truthyGender s ∧ s.participant.gender = p.2.participant.gender)).length + 1)
          else p.2.gender_rank } : RaceResult)
        = { q.2 with
        overall_rank := some (n + 1)
        category_rank := some ((((L'.take n).map (fun p => p.2)).filter
          (fun s => s.category = q.2.category)).length + 1)
        gender_rank := if truthyGender q.2 then
            some ((((L'.take n).map (fun p => p.2)).filter
              (fun s => truthyGender s ∧ s.participant.gender = q.2.participant.gender)).length + 1)
          else q.2.gender_rank } := by
      refine RaceResult.ext ?_ ?_ ?_ ?_ ?_ ?_ ?_ ?_ ?_ ?_
      · exact hmid.1
      · exact hmid.2.1
      · exact hmid.2.2.1
      · exact hmid.2.2.2.1
      · exact hmid.2.2.2.2.1
      · exact hmid.2.2.2.2.2.1
      · exact hmid.2.2.2.2.2.2.1
      · rfl
      · simpa using hcnt
      · show (if truthyGender p.2 = true then _ else p.2.gender_rank)
          = (if truthyGender q.2 = true then _ else q.2.gender_rank)
        rcases htgv : truthyGender q.2 with _ | _
        · rw [htg, htgv]
          simp only [Bool.false_eq_true, if_false]
          exact hmid.2.2.2.2.2.2.2 (hrk p (List.get?_mem hLn)) (htg.trans htgv)
        · rw [htg, htgv]
          simp only [if_true]
          have hgcnt : ((((L.take n).map (fun p => p.2)).filter
              (fun s => truthyGender s ∧ s.participant.gender = p.2.participant.gender)).length)
              = ((((L'.take n).map (fun p => p.2)).filter
              (fun s => truthyGender s ∧ s.participant.gender = q.2.participant.gender)).length) := by
            rw [show p.2.participant = q.2.participant from hmid.1]
            exact (forall₂_filter_cong _ (fun a b hab => by
              simp [truthyGender, hab.1]) hpre).length_eq
          simpa using hgcnt
    rw [rankedAssign_get? L n p hLn, rankedAssign_get? L' n q hq, hfst, hrec]

theorem rankPhase_cong (records : List (Nat × TimeRecord))
    {rows2 rows2' : List RaceResult} (h : List.Forall₂ relMid rows2 rows2') :
    rankPhase records rows2 = rankPhase records rows2' := by
  have hasg : rankedAssign (sortedFin rows2 ++ sortedStarted records rows2)
      = rankedAssign (sortedFin rows2' ++ sortedStarted records rows2') :=
    rankedAssign_eq
      (forall₂_append_general (sortedFin_cong h) (sortedStarted_cong records h))
      (ranked_all_ranked records rows2)
  apply List.ext_get?
  intro n
  rcases hn : rows2.get? n with _ | r
  · have hn2 : rows2'.get? n = none := by
      rw [List.get?_eq_none] at hn ⊢
      rw [← h.length_eq]
      exact hn
    have e1 : (rankPhase records rows2).get? n = none := by
      rw [List.get?_eq_none] at hn ⊢
      simpa [rankPhase_def] using hn
    have e2 : (rankPhase records rows2').get? n = none := by
      rw [List.get?_eq_none] at hn2 ⊢
      simpa [rankPhase_def] using hn2
    rw [e1, e2]
  · obtain ⟨hi, hx⟩ := List.get?_eq_some.mp hn
    have hi2 : n < rows2'.length := by rw [← h.length_eq]; exact hi
    have hq : rows2'.get? n = some (rows2'.get ⟨n, hi2⟩) := List.get?_eq_get hi2
    have hrel : relMid r (rows2'.get ⟨n, hi2⟩) := by
      rw [← hx]
      exact (List.forall₂_iff_get.mp h).2 n hi hi2
    set q := rows2'.get ⟨n, hi2⟩ with hqd
    rw [rankPhase_get? records rows2 n r hn, rankPhase_get? records rows2' n q hq, hasg]
    congr 1
    rcases hdl : dlookup n (rankedAssign (sortedFin rows2' ++ sortedStarted records rows2'))
      with _ | r2
    · by_cases hrk : isRanked q = true
      · exact absurd hdl (rankPhase_coverage hq hrk)
      · have hrkq : isRanked q = false := by simpa using hrk
        have hrkr : isRanked r = false := (relMid_isRanked hrel).trans hrkq
        rw [if_neg (by simp [hrkr]), if_neg (by simp [hrkq])]
        refine RaceResult.ext ?_ ?_ ?_ ?_ ?_ ?_ ?_ ?_ ?_ ?_
        · exact hrel.1
        · exact hrel.2.1
        · exact hrel.2.2.1
        · exact hrel.2.2.2.1
        · exact hrel.2.2.2.2.1
        · exact hrel.2.2.2.2.2.1
        · exact hrel.2.2.2.2.2.2.1
        · rfl
        · rfl
        · rfl
    · rfl

end RaceTiming

namespace RaceTiming

theorem forall₂_mem_left {α β : Type} {r : α → β → Prop} :
    ∀ {l : List α} {m : List β}, List.Forall₂ r l m → ∀ a ∈ l, ∃ b ∈ m, r a b := by
  intro l m h
  induction h with
  | nil => intro a ha; cases ha
  | cons hab hrest ih =>
    intro a ha
    rcases List.mem_cons.mp ha with h1 | h2
    · exact ⟨_, List.mem_cons_self _ _, h1 ▸ hab⟩
    · obtain ⟨b, hb, hr⟩ := ih _ h2
      exact ⟨b, List.mem_cons_of_mem _ hb, hr⟩

/-- The initial scan state of `_update_result`: a gun start pre-loads the
start time and `Started`, otherwise the scan starts from `Registered`. -/
def initState (race : Race) : ScanState :=
  match race.start_time with
  | some g => { split_times := [], start_time := some g, finish_time := none, status := .started }
  | none => { split_times := [], start_time := none, finish_time := none, status := .registered }

theorem update_result_status (race : Race) (times : List TimeRecord) (y : RaceResult) :
    (update_result race times y).status =
      if (y.status = .dnf ∨ y.status = .dns) ∧
          (times.foldl scanStep (initState race)).status ≠ .finished then y.status
      else (times.foldl scanStep (initState race)).status := rfl

theorem update_result_start_time (race : Race) (times : List TimeRecord) (y : RaceResult) :
    (update_result race times y).start_time
      = (times.foldl scanStep (initState race)).start_time := rfl

theorem update_result_finish_time (race : Race) (times : List TimeRecord) (y : RaceResult) :
    (update_result race times y).finish_time
      = (times.foldl scanStep (initState race)).finish_time := rfl

theorem update_result_split_times (race : Race) (times : List TimeRecord) (y : RaceResult) :
    (update_result race times y).split_times
      = (times.foldl scanStep (initState race)).split_times := rfl

theorem update_result_total_time (race : Race) (times : List TimeRecord) (y : RaceResult) :
    (update_result race times y).total_time
      = (match (times.foldl scanStep (initState race)).start_time,
            (times.foldl scanStep (initState race)).finish_time with
        | some st, some ft => some (ft - st)
        | _, _ => none) := rfl

/-- `_update_result` is stable on its own outputs: a row standing in `rel2`
to some recomputed row (over the same records) is left unchanged by a
recompute, since status, times and splits are all re-derived from the same
scan and a preserved DNF/DNS mark is preserved again. -/
theorem update_result_stable (race : Race) (times : List TimeRecord) {z y : RaceResult}
    (h : rel2 z (update_result race times y)) :
    update_result race times z = z := by
  obtain ⟨hp, hs, hst, hf, ht, hsp, _, _⟩ := h
  refine RaceResult.ext ?_ ?_ ?_ ?_ ?_ ?_ ?_ ?_ ?_ ?_
  · rfl
  · rfl
  · rw [update_result_status]
    rw [update_result_status] at hs
    by_cases hg : (z.status = .dnf ∨ z.status = .dns) ∧
        (times.foldl scanStep (initState race)).status ≠ .finished
    · rw [if_pos hg]
    · rw [if_neg hg]
      by_cases hgy : (y.status = .dnf ∨ y.status = .dns) ∧
          (times.foldl scanStep (initState race)).status ≠ .finished
      · rw [if_pos hgy] at hs
        exact absurd ⟨by rw [hs]; exact hgy.1, hgy.2⟩ hg
      · rw [if_neg hgy] at hs
        exact hs.symm
  · rw [update_result_start_time]
    rw [update_result_start_time] at hst
    exact hst.symm
  · rw [update_result_finish_time]
    rw [update_result_finish_time] at hf
    exact hf.symm
  · rw [update_result_total_time]
    rw [update_result_total_time] at ht
    exact ht.symm
  · rw [update_result_split_times]
    rw [update_result_split_times] at hsp
    exact hsp.symm
  · rfl
  · rfl
  · rfl

theorem list_map_self {α : Type} {f : α → α} :
    ∀ {l : List α}, (∀ a ∈ l, f a = a) → l.map f = l := by
  intro l h
  induction l with
  | nil => rfl
  | cons a t ih =>
    simp only [List.map_cons]
    rw [h a (List.mem_cons_self _ _), ih (fun b hb => h b (List.mem_cons_of_mem _ hb))]

/-- `_calculate_rankings` is idempotent on row lists whose age-derived
categories avoid "Open": the second run's recat resets every ranked row to
its age-derived category, aging-down then redoes exactly the same moves, and
the ranking pass reads only fields the first run preserved. -/
theorem calculate_rankings_idem (race : Race) (records : List (Nat × TimeRecord))
    (l : List RaceResult)
    (H : ∀ r ∈ l, calculate_category r.participant.age race.age_groups ≠ "Open") :
    calculate_rankings race records (calculate_rankings race records l)
      = calculate_rankings race records l := by
  have hrel := calculate_rankings_rel2 race records l
  have H2 : ∀ r ∈ calculate_rankings race records l,
      calculate_category r.participant.age race.age_groups ≠ "Open" := by
    intro r hr
    obtain ⟨b, hb, hrb⟩ := forall₂_mem_left hrel r hr
    rw [hrb.1]
    exact H b hb
  exact rankPhase_cong records (agingPhase_cong race (recatPhase_cong race hrel H2))

/-- A mass-start race with three age groups 0-19/20-39/40-59; ages above 59
fall in no group, so `_calculate_category` yields "Open" for them. -/
def raceC4 : Race :=
  ⟨.mass_start, none, [⟨"Junior", 0, 19⟩, ⟨"Senior", 20, 39⟩, ⟨"Master", 40, 59⟩],
    [startTP, finishTP]⟩

/-- A registered row for participant `i` of age `age` in category `cat`. -/
def rowOf (i : Nat) (age : Int) (cat : String) : RaceResult :=
  ⟨⟨i, some age, none⟩, cat, .registered, none, none, none, [], none, none, none⟩

/-- Three registered rows: a 15-year-old Junior, a 30-year-old Senior, and a
70-year-old whose stored category "Master" is stale (the age-derived category
is "Open", which the recat phase never overrides). -/
def rowsC4 : List RaceResult :=
  [rowOf 1 15 "Junior", rowOf 2 30 "Senior", rowOf 3 70 "Master"]

/-- Start/finish records giving totals 100, 95 and 90 to participants
1, 2 and 3. -/
def recsC4 : List (Nat × TimeRecord) :=
  [(1, ⟨startTP, 0⟩), (1, ⟨finishTP, 100⟩),
   (2, ⟨startTP, 0⟩), (2, ⟨finishTP, 95⟩),
   (3, ⟨startTP, 0⟩), (3, ⟨finishTP, 90⟩)]

/-- The first two rows of `rowsC4`: both age-derived categories are proper
age groups, never "Open". -/
def rowsC4W : List RaceResult :=
  [rowOf 1 15 "Junior", rowOf 2 30 "Senior"]

/-- Counterexample to claim C4 as stated: on `rowsC4` the first run ages the
Senior (95s) and then the "Open"-derived Master (90s) down into Junior, but
the second run's recat resets only the Senior to "Senior" while the
Master keeps "Junior" (race_control.py:560-567 overrides a category only when
the age-derived one is not "Open"), so the Junior winner is now the 90s row
and the 95s Senior is no longer moved: the second run changes the Senior's
category and the category ranks. -/
theorem C4_counterexample :
    ((calculate_results raceC4 recsC4
        (calculate_results raceC4 recsC4 rowsC4)).map (fun r => (r.category, r.category_rank))
      ≠ (calculate_results raceC4 recsC4 rowsC4).map (fun r => (r.category, r.category_rank))) ∧
    (calculate_results raceC4 recsC4 rowsC4).map (fun r => (r.category, r.category_rank))
      = [("Junior", some 3), ("Junior", some 2), ("Junior", some 1)] ∧
    (calculate_results raceC4 recsC4
        (calculate_results raceC4 recsC4 rowsC4)).map (fun r => (r.category, r.category_rank))
      = [("Junior", some 2), ("Senior", some 1), ("Junior", some 1)] := by
  refine ⟨?_, ?_, ?_⟩ <;> with_unfolding_all decide

/-- **Claim C4** (corrected): recomputing results twice in a row with no new
TimeRecords between the two runs produces identical ResultRows, provided the
age-derived category of every row's participant is not "Open" (otherwise the
recat phase keeps a stale aged-down category and aging-down need not redo the
same moves, see `C4_counterexample`). Under this proviso
`calculate_results` is idempotent. -/
theorem C4_ranking_idempotent (race : Race) (records : List (Nat × TimeRecord))
    (rows : List RaceResult)
    (H : ∀ r ∈ rows, calculate_category r.participant.age race.age_groups ≠ "Open") :
    calculate_results race records (calculate_results race records rows)
      = calculate_results race records rows := by
  have Hl : ∀ r ∈ rows.map (fun r => update_result race
      ((records.filter (fun p => p.1 = r.participant.id)).map (fun p => p.2)) r),
      calculate_category r.participant.age race.age_groups ≠ "Open" := by
    intro r hr
    obtain ⟨y, hy, hyr⟩ := List.mem_map.mp hr
    rw [← hyr]
    exact H y hy
  have hmapself : (calculate_rankings race records (rows.map (fun r => update_result race
      ((records.filter (fun p => p.1 = r.participant.id)).map (fun p => p.2)) r))).map
      (fun r => update_result race
        ((records.filter (fun p => p.1 = r.participant.id)).map (fun p => p.2)) r)
      = calculate_rankings race records (rows.map (fun r => update_result race
        ((records.filter (fun p => p.1 = r.participant.id)).map (fun p => p.2)) r)) := by
    apply list_map_self
    intro z hz
    obtain ⟨x, hx, hzx⟩ := forall₂_mem_left
      (calculate_rankings_rel2 race records _) z hz
    obtain ⟨y, hy, hyx⟩ := List.mem_map.mp hx
    rw [← hyx] at hzx
    have hpz : z.participant = y.participant := hzx.1
    show update_result race
        ((records.filter (fun p => p.1 = z.participant.id)).map (fun p => p.2)) z = z
    rw [hpz]
    exact update_result_stable race _ hzx
  show calculate_rankings race records ((calculate_rankings race records
      (rows.map (fun r => update_result race
        ((records.filter (fun p => p.1 = r.participant.id)).map (fun p => p.2)) r))).map
      (fun r => update_result race
        ((records.filter (fun p => p.1 = r.participant.id)).map (fun p => p.2)) r))
    = calculate_rankings race records (rows.map (fun r => update_result race
        ((records.filter (fun p => p.1 = r.participant.id)).map (fun p => p.2)) r))
  rw [hmapself]
  exact calculate_rankings_idem race records _ Hl

/-- Witness for `C4_ranking_idempotent` at the concrete race `raceC4` with
rows `rowsC4W`, whose age-derived categories are "Junior" and "Senior". -/
theorem C4_witness :
    (∀ r ∈ rowsC4W, calculate_category r.participant.age raceC4.age_groups ≠ "Open") ∧
    calculate_results raceC4 recsC4 (calculate_results raceC4 recsC4 rowsC4W)
      = calculate_results raceC4 recsC4 rowsC4W :=
  ⟨by with_unfolding_all decide,
    C4_ranking_idempotent raceC4 recsC4 rowsC4W (by with_unfolding_all decide)⟩

end RaceTiming
